import Mathlib

/-!
Verification of the Digital Director interpretation pipeline.

This file gives a shallow embedding of the note-interpretation pipeline
(voice analysis, rule application, orchestral structure analysis, agogic
map construction, safety validation and dynamic-curve interpolation) and
proves or refutes the documented behavioural claims about it.

Modelling conventions:
* Python ints are `Int` (or `Nat` where the source value is a count/tick
  that is never negative); Python floats are modelled as exact rationals
  `Rat` (reals `Real` for the trigonometric agogic-wave code).
* `int(x)` (Python truncation toward zero) is `pyInt`; `round x`
  (Python round-half-to-even) is `pyRound`.
* Unseeded `random.uniform` draws are threaded in as explicit parameters.
* Per-rule default parameter dictionaries are inlined as literals.
-/

namespace DigitalDirector

/-- Python `int(x)` on a float: truncation toward zero. -/
def pyInt (q : ℚ) : ℤ :=
  if q < 0 then -⌊-q⌋ else ⌊q⌋

/-- Python `round(x)`: round half to even. -/
def pyRound (q : ℚ) : ℤ :=
  let f := ⌊q⌋
  let r := q - f
  if r < 1/2 then f
  else if 1/2 < r then f + 1
  else if f % 2 = 0 then f else f + 1

/-!  ## Note model (`voice_analyzer.NoteProperties`)

A note as seen by the rule engine and the validation pass.  The original
MIDI fields are captured at construction; the `adjusted_*` fields start
equal to them.  Analysis-derived fields (`is_downbeat`, `phrase_position`,
intervals, neighbour pitches) are snapshots of what the analyzer stored on
the note object; neighbour links are reduced to the data the rules read
from them (existence and the neighbour's immutable pitch).  -/

structure Note where
  pitch : ℤ
  velocity : ℤ
  original_start_time : ℤ
  original_duration : ℤ
  track : ℤ
  channel : ℤ
  adjusted_start_time : ℤ
  adjusted_duration : ℤ
  adjusted_velocity : ℤ
  is_downbeat : Bool
  phrase_position : ℚ
  interval_to_prev : ℤ
  interval_to_next : ℤ
  hasPrev : Bool
  hasNext : Bool
  prevPitch : ℤ
  nextPitch : ℤ
  deriving Repr, DecidableEq

/-- The original (immutable once captured) fields of a note, as a tuple.
Used to state frame properties. -/
def origFields (n : Note) : ℤ × ℤ × ℤ × ℤ × ℤ × ℤ :=
  (n.pitch, n.velocity, n.original_start_time, n.original_duration, n.track, n.channel)

/-!  ## Interpretation context (`rule_base.InterpretationContext`)  -/

structure Ctx where
  ticks_per_beat : ℕ
  expressiveness : ℚ
  rubato_strength : ℚ
  articulation_strength : ℚ
  dynamics_strength : ℚ
  timing_direction_bias : ℚ
  deriving Repr, DecidableEq

/-- `max_timing_change = int(ticks_per_beat * 0.1 * rubato_strength)`. -/
def Ctx.max_timing_change (c : Ctx) : ℤ :=
  pyInt ((c.ticks_per_beat : ℚ) * 0.1 * c.rubato_strength)

/-- `max_acceleration` before the bias reshaping. -/
def Ctx.max_acceleration_base (c : Ctx) : ℤ :=
  pyInt ((c.ticks_per_beat : ℚ) * 0.1 * c.rubato_strength * (-1))

/-- `max_delay` before the bias reshaping. -/
def Ctx.max_delay_base (c : Ctx) : ℤ :=
  pyInt ((c.ticks_per_beat : ℚ) * 0.1 * c.rubato_strength)

/-- `max_acceleration` after the `timing_direction_bias` reshaping. -/
def Ctx.max_acceleration (c : Ctx) : ℤ :=
  if 0 < c.timing_direction_bias then
    pyInt ((c.max_acceleration_base : ℚ) * (1 - c.timing_direction_bias))
  else c.max_acceleration_base

/-- `max_delay` after the `timing_direction_bias` reshaping. -/
def Ctx.max_delay (c : Ctx) : ℤ :=
  if c.timing_direction_bias < 0 then
    pyInt ((c.max_delay_base : ℚ) * (1 + c.timing_direction_bias))
  else c.max_delay_base

/-- `InterpretationContext.get_timing_adjustment`. -/
def Ctx.get_timing_adjustment (c : Ctx) (factor : ℚ) : ℤ :=
  if factor < 0 then pyInt ((c.max_acceleration : ℚ) * (factor / (-1)))
  else pyInt ((c.max_delay : ℚ) * factor)

/-!  ## Safety validation pass
(`NoteLevelInterpreter._validate_and_fix_note_durations`)

The pass walks every voice and every note.  For a note whose original
relative duration (in beats) is at most `0.25` it computes a tier
percentage (`0.9` / `0.8` / `0.7`), an absolute minimum
`max(2, int(ticks_per_beat * relative_duration * 0.5))`, the floor
`min_duration = max(absolute_min, int(original_duration * min_percent))`,
and raises `adjusted_duration` to the floor when it is below it.  A raise
whose pre-correction value was `< min_duration * 0.5` is counted as
critical.  Notes with relative duration above `0.25` are not touched. -/

/-- The percentage tier chosen from the original relative duration
(only meaningful when `relative_duration ≤ 0.25`; the source's
`else`-branch value `0.6` is unreachable inside the guard). -/
def tierPercent (relative_duration : ℚ) : ℚ :=
  if relative_duration ≤ 0.0625 then 0.9
  else if relative_duration ≤ 0.125 then 0.8
  else if relative_duration ≤ 0.25 then 0.7
  else 0.6

/-- The duration floor the validation pass computes for a note
(`min_duration` in the source). -/
def codeMinDuration (tpb : ℕ) (n : Note) : ℤ :=
  let relative_duration : ℚ := (n.original_duration : ℚ) / (tpb : ℚ)
  let absolute_min : ℤ := max 2 (pyInt ((tpb : ℚ) * relative_duration * 0.5))
  max absolute_min (pyInt ((n.original_duration : ℚ) * tierPercent relative_duration))

/-- One note of the validation pass: returns the note together with
(corrected?, critical?) flags. -/
def validateNote (tpb : ℕ) (n : Note) : Note × Bool × Bool :=
  let relative_duration : ℚ := (n.original_duration : ℚ) / (tpb : ℚ)
  if relative_duration ≤ 0.25 then
    let min_duration := codeMinDuration tpb n
    if n.adjusted_duration < min_duration then
      ({ n with adjusted_duration := min_duration }, true,
        decide ((n.adjusted_duration : ℚ) < (min_duration : ℚ) * 0.5))
    else (n, false, false)
  else (n, false, false)

/-- The validation pass over one voice's note list. -/
def validateVoiceNotes (tpb : ℕ) (notes : List Note) : List Note :=
  notes.map (fun n => (validateNote tpb n).1)

/-- The validation pass over all voices. -/
def validatePass (tpb : ℕ) (voices : List (List Note)) : List (List Note) :=
  voices.map (validateVoiceNotes tpb)

/-!  ## Phrase detection (`MusicalVoice._detect_phrases`)

The analyzer sorts the voice's notes by original start time and scans
them; a phrase closes at note `i` when the gap to the previous note's end
exceeds one beat, the previous note lasted more than two beats, or the
interval to the previous note exceeds seven semitones.  A closed phrase
is registered only when it has more than two notes; the trailing open
phrase is registered with kind `"final"` under the same length filter. -/

structure ANote where
  ost : ℕ
  dur : ℕ
  pitch : ℤ
  deriving Repr, DecidableEq

/-- The phrase-closing condition of `_detect_phrases`, evaluated at the
transition from `prev` to `cur`. -/
def phraseBreak (tpb : ℕ) (prev cur : ANote) : Bool :=
  let gap : ℤ := (cur.ost : ℤ) - ((prev.ost : ℤ) + (prev.dur : ℤ))
  decide ((tpb : ℤ) < gap) || decide ((tpb : ℤ) * 2 < (prev.dur : ℤ)) ||
    decide (7 < (cur.pitch - prev.pitch).natAbs)

/-- The scan loop of `_detect_phrases`: `prev` is note `i-1`, the list
argument holds notes `i, i+1, ...`, `start` is the index where the
current phrase began.  Returns the final `start` and the registered
phrases. -/
def detectScan (tpb : ℕ) :
    ANote → List ANote → ℕ → ℕ → List (ℕ × ℕ × String) →
    ℕ × List (ℕ × ℕ × String)
  | _, [], _, start, acc => (start, acc)
  | prev, cur :: rest, i, start, acc =>
    if phraseBreak tpb prev cur then
      let acc' := if 2 < i - start then acc ++ [(start, i - 1, "standard")] else acc
      detectScan tpb cur rest (i + 1) i acc'
    else
      detectScan tpb cur rest (i + 1) start acc

/-- The start-time sort `_detect_phrases` performs first. -/
def sortANotes (notes : List ANote) : List ANote :=
  notes.insertionSort (fun a b => a.ost ≤ b.ost)

/-- Whether the scan's closing condition holds at index `i` of the
sorted note list (meaningful for `1 ≤ i < length`). -/
def breakAt (tpb : ℕ) (s : List ANote) (i : ℕ) : Bool :=
  if i = 0 then false
  else
    match s.get? (i - 1), s.get? i with
    | some prev, some cur => phraseBreak tpb prev cur
    | _, _ => false

/-- `MusicalVoice._detect_phrases`. -/
def detectPhrases (tpb : ℕ) (notes : List ANote) : List (ℕ × ℕ × String) :=
  let sorted := sortANotes notes
  match sorted with
  | [] => []
  | h :: t =>
    let r := detectScan tpb h t 1 0 []
    if 2 < (h :: t).length - r.1 then r.2 ++ [(r.1, (h :: t).length - 1, "final")]
    else r.2

/-- Downbeat test of `_calculate_metric_positions`: the beat within the
measure (assuming 4/4) is within `0.1` of beat 1 or beat 3. -/
def isDownbeatTime (tpb : ℕ) (ost : ℕ) : Bool :=
  let ticks_per_measure := 4 * tpb
  let beat_in_measure : ℚ := ((ost % ticks_per_measure : ℕ) : ℚ) / (tpb : ℚ)
  decide (beat_in_measure < 0.1) || decide (|beat_in_measure - 2| < 0.1)

/-- Modelled from the spec: the phrase-detection scan as the claim states
it, with a fourth closing criterion — the current phrase already holds at
least four notes and the current note lands on a downbeat.  For
comparison with `detectScan`. -/
def detectScanSpec (tpb : ℕ) :
    ANote → List ANote → ℕ → ℕ → List (ℕ × ℕ × String) →
    ℕ × List (ℕ × ℕ × String)
  | _, [], _, start, acc => (start, acc)
  | prev, cur :: rest, i, start, acc =>
    if phraseBreak tpb prev cur || (decide (4 ≤ i - start) && isDownbeatTime tpb cur.ost) then
      let acc' := if 2 < i - start then acc ++ [(start, i - 1, "standard")] else acc
      detectScanSpec tpb cur rest (i + 1) i acc'
    else
      detectScanSpec tpb cur rest (i + 1) start acc

/-- Modelled from the spec: phrase detection with the claim's downbeat
closing criterion included. -/
def detectPhrasesSpec (tpb : ℕ) (notes : List ANote) : List (ℕ × ℕ × String) :=
  let sorted := sortANotes notes
  match sorted with
  | [] => []
  | h :: t =>
    let r := detectScanSpec tpb h t 1 0 []
    if 2 < (h :: t).length - r.1 then r.2 ++ [(r.1, (h :: t).length - 1, "final")]
    else r.2

/-!  ## Orchestral structure analysis (`OrchestralConductor`)  -/

/-- The data `analyze_structure` reads from a voice: the notes'
original start times (in index order) and the analyzer's phrase list. -/
structure CVoice where
  noteStarts : List ℕ
  phrases : List (ℕ × ℕ × String)
  deriving Repr, DecidableEq

/-- `OrchestralConductor._estimate_measure_number` (fallback path:
start time // 1920 ticks per measure). -/
def estimateMeasure (ost : ℕ) : ℕ := ost / 1920

/-- `OrchestralConductor._get_measure_from_note_index`. -/
def measureFromNoteIndex (v : CVoice) (i : ℕ) : Option ℕ :=
  (v.noteStarts.get? i).map estimateMeasure

/-- Phrase boundary collection of `analyze_structure`: one
`(start_measure, end_measure, voice_index, kind)` entry per phrase whose
two note indices resolve to measures. -/
def collectBoundaries (voices : List CVoice) : List (ℕ × ℕ × ℕ × String) :=
  (voices.enum.map (fun p =>
    p.2.phrases.filterMap (fun ph =>
      match measureFromNoteIndex p.2 ph.1, measureFromNoteIndex p.2 ph.2.1 with
      | some sm, some em => some (sm, em, p.1, ph.2.2)
      | _, _ => none))).flatten

/-- `max_measure_found` in `analyze_structure`. -/
def maxMeasureFound (voices : List CVoice) : ℕ :=
  (voices.map (fun v => (v.noteStarts.map estimateMeasure).foldl max 0)).foldl max 0

/-- Grouping step of `analyze_structure`: start a new group when the
incoming boundary's start measure is more than one measure away from the
last member of the current group. -/
def groupStep (st : List (List (ℕ × ℕ × ℕ × String)) × List (ℕ × ℕ × ℕ × String))
    (b : ℕ × ℕ × ℕ × String) :
    List (List (ℕ × ℕ × ℕ × String)) × List (ℕ × ℕ × ℕ × String) :=
  match st with
  | (groups, []) => (groups, [b])
  | (groups, cur) =>
    if ((b.1 : ℤ) - ((cur.getLastD b).1 : ℤ)).natAbs ≤ 1 then (groups, cur ++ [b])
    else (groups ++ [cur], [b])

/-- The boundary grouping of `analyze_structure`. -/
def groupBoundaries (bs : List (ℕ × ℕ × ℕ × String)) :
    List (List (ℕ × ℕ × ℕ × String)) :=
  let r := bs.foldl groupStep ([], [])
  if r.2.isEmpty then r.1 else r.1 ++ [r.2]

/-- Python-dict insertion order semantics for `gravity_centers`:
overwrite in place when the key exists, append otherwise. -/
def dictInsert (d : List (ℤ × ℚ)) (k : ℤ) (v : ℚ) : List (ℤ × ℚ) :=
  if d.any (fun p => p.1 == k) then d.map (fun p => if p.1 == k then (k, v) else p)
  else d ++ [(k, v)]

/-- Promotion step of `analyze_structure` over one boundary group:
promote to a shared phrase boundary when the group holds at least
`max(1, voices // 3)` members; within a promoted group, promote the
(rounded) shared end to a cadence when at least half the voices agree,
with gravity `min(1, 0.7 + likelihood * 0.3)`. -/
def promoteStep (nv : ℕ) (st : List (ℤ × ℤ) × List ℤ × List (ℤ × ℚ))
    (g : List (ℕ × ℕ × ℕ × String)) :
    List (ℤ × ℤ) × List ℤ × List (ℤ × ℚ) :=
  if max 1 (nv / 3) ≤ g.length then
    let avg_start : ℚ := (g.map (fun b => (b.1 : ℚ))).sum / (g.length : ℚ)
    let avg_end : ℚ := (g.map (fun b => (b.2.1 : ℚ))).sum / (g.length : ℚ)
    let phrase_start := pyRound avg_start
    let phrase_end := pyRound avg_end
    let pbs' := st.1 ++ [(phrase_start, phrase_end)]
    let likelihood : ℚ := (g.length : ℚ) / (nv : ℚ)
    if 1/2 ≤ likelihood then
      (pbs', st.2.1 ++ [phrase_end],
        dictInsert st.2.2 phrase_end (min 1 (0.7 + likelihood * 0.3)))
    else (pbs', st.2.1, st.2.2)
  else st

/-- The structural state the conductor derives. -/
structure OrchStructure where
  measure_count : ℕ
  phrase_boundaries : List (ℤ × ℤ)
  cadences : List ℤ
  gravity_centers : List (ℤ × ℚ)
  deriving Repr, DecidableEq

/-- `OrchestralConductor._create_default_structure`. -/
def createDefaultStructure (measure_count : ℕ) : OrchStructure :=
  let mc := if measure_count = 0 then 16 else measure_count
  let idxs := (List.range ((mc + 7) / 8)).map (· * 8)
  idxs.foldl (fun st i =>
    let e := min (i + 7) (mc - 1)
    let gcs := dictInsert st.gravity_centers (e : ℤ) 0.6
    let gcs := if i + 4 < e then dictInsert gcs ((i + 4 : ℕ) : ℤ) 0.3 else gcs
    { st with
        phrase_boundaries := st.phrase_boundaries ++ [((i : ℤ), (e : ℤ))],
        cadences := st.cadences ++ [(e : ℤ)],
        gravity_centers := gcs })
    { measure_count := mc, phrase_boundaries := [], cadences := [], gravity_centers := [] }

/-- `OrchestralConductor._create_default_structure_from_voices`. -/
def createDefaultStructureFromVoices (voices : List CVoice) (max_measure : ℕ) :
    OrchStructure :=
  let mm :=
    if max_measure = 0 then
      voices.foldl (fun acc v =>
        match v.noteStarts.getLast? with
        | some t => max acc (estimateMeasure t)
        | none => acc) 0
    else max_measure
  let mm := max 16 mm
  let idxs := (List.range ((mm + 7) / 8)).map (· * 8)
  idxs.foldl (fun st i =>
    let e := min (i + 7) mm
    let gcs := dictInsert st.gravity_centers (e : ℤ) 0.6
    let gcs := if i + 4 < e then dictInsert gcs ((i + 4 : ℕ) : ℤ) 0.3 else gcs
    { st with
        phrase_boundaries := st.phrase_boundaries ++ [((i : ℤ), (e : ℤ))],
        cadences := st.cadences ++ [(e : ℤ)],
        gravity_centers := gcs })
    { measure_count := mm + 1, phrase_boundaries := [], cadences := [], gravity_centers := [] }

/-- `OrchestralConductor.analyze_structure`. -/
def analyzeStructure (voices : List CVoice) : OrchStructure :=
  if voices.isEmpty then createDefaultStructure 16
  else
    let mmf := maxMeasureFound voices
    let bs := collectBoundaries voices
    if bs.isEmpty then createDefaultStructureFromVoices voices mmf
    else
      let sorted := bs.insertionSort (fun a b => a.1 ≤ b.1)
      let max_measure := (sorted.map (fun b => b.2.1)).foldl max 0
      let measure_count := max (max_measure + 1) (mmf + 1)
      let groups := groupBoundaries sorted
      let r := groups.foldl (promoteStep voices.length) ([], [], [])
      { measure_count := measure_count, phrase_boundaries := r.1,
        cadences := r.2.1, gravity_centers := r.2.2 }

/-- Modelled from the spec: the promotion step with the claim's
`⌈voices/3⌉` agreement threshold instead of the source's
`max(1, voices // 3)`.  For comparison with `promoteStep`. -/
def promoteStepSpec (nv : ℕ) (st : List (ℤ × ℤ) × List ℤ × List (ℤ × ℚ))
    (g : List (ℕ × ℕ × ℕ × String)) :
    List (ℤ × ℤ) × List ℤ × List (ℤ × ℚ) :=
  if (nv + 2) / 3 ≤ g.length then
    let avg_start : ℚ := (g.map (fun b => (b.1 : ℚ))).sum / (g.length : ℚ)
    let avg_end : ℚ := (g.map (fun b => (b.2.1 : ℚ))).sum / (g.length : ℚ)
    let phrase_start := pyRound avg_start
    let phrase_end := pyRound avg_end
    let pbs' := st.1 ++ [(phrase_start, phrase_end)]
    let likelihood : ℚ := (g.length : ℚ) / (nv : ℚ)
    if 1/2 ≤ likelihood then
      (pbs', st.2.1 ++ [phrase_end],
        dictInsert st.2.2 phrase_end (min 1 (0.7 + likelihood * 0.3)))
    else (pbs', st.2.1, st.2.2)
  else st

/-- Modelled from the spec: `analyze_structure` with the `⌈voices/3⌉`
promotion threshold the claim states. -/
def analyzeStructureSpec (voices : List CVoice) : OrchStructure :=
  if voices.isEmpty then createDefaultStructure 16
  else
    let mmf := maxMeasureFound voices
    let bs := collectBoundaries voices
    if bs.isEmpty then createDefaultStructureFromVoices voices mmf
    else
      let sorted := bs.insertionSort (fun a b => a.1 ≤ b.1)
      let max_measure := (sorted.map (fun b => b.2.1)).foldl max 0
      let measure_count := max (max_measure + 1) (mmf + 1)
      let groups := groupBoundaries sorted
      let r := groups.foldl (promoteStepSpec voices.length) ([], [], [])
      { measure_count := measure_count, phrase_boundaries := r.1,
        cadences := r.2.1, gravity_centers := r.2.2 }

/-!  ## Role dispatch (`_interpret_voice` / `RuleManager.apply_rules`)  -/

/-- The voice-type selection both dispatch sites use: `"bass"` and
`"inner_voice"` map to their rule sets, every other role — including the
initial `"unknown"` — falls through to `"melody"`. -/
def voiceTypeFor (role : String) : String :=
  if role = "bass" then "bass"
  else if role = "inner_voice" then "inner"
  else "melody"

/-- The keys of `RuleManager.rule_sets`. -/
def ruleSetKeys : List String := ["melody", "bass", "inner"]

/-!  ## Dynamic-curve midpoint interpolation
(`extract_dynamic_points_baroque`, step 4)

After filtering, the per-voice point list is sorted by time; for every
adjacent pair more than 8 beats apart one midpoint is computed at the
temporal midpoint with the linearly interpolated value, and the collected
midpoints are appended and the list re-sorted. -/

/-- The midpoints collected by the step-4 loop over adjacent pairs. -/
def midInserted : List (ℚ × ℤ) → List (ℚ × ℤ)
  | [] => []
  | [_] => []
  | p :: q :: rest =>
    (if 8 < q.1 - p.1 then
      [(p.1 + (q.1 - p.1) / 2, pyInt ((p.2 : ℚ) + ((q.2 : ℚ) - (p.2 : ℚ)) / 2))]
     else []) ++ midInserted (q :: rest)

/-- Step 4 of `extract_dynamic_points_baroque`: sort, insert one midpoint
per adjacent pair with gap above 8 beats, re-sort. -/
def interpolateStep (pts : List (ℚ × ℤ)) : List (ℚ × ℤ) :=
  let sorted := pts.insertionSort (fun a b => a.1 ≤ b.1)
  (sorted ++ midInserted sorted).insertionSort (fun a b => a.1 ≤ b.1)

/-!  ## Rule catalogue

One definition per rule `apply` method, default parameters inlined.
Rules write only the `adjusted_*` fields.  `PreLeapRule.apply`
additionally returns the update it performs on the following note;
stateful rules thread their internal state explicitly; unseeded random
draws are passed in as rational parameters. -/

/-- `melody_rules.PhraseStartRule.apply`. -/
def PhraseStartRule.apply (c : Ctx) (n : Note) : Note :=
  if n.phrase_position < 0.1 then
    let delay := pyInt ((c.max_timing_change : ℚ) * 0.7)
    { n with
        adjusted_start_time := n.adjusted_start_time + delay,
        adjusted_duration := max 3 (n.adjusted_duration - delay),
        adjusted_velocity := min 127 (pyInt ((n.velocity : ℚ) * (1 + 0.07))) }
  else if n.phrase_position < 0.1 * 2 ∧ n.hasPrev then
    let accel := pyInt ((c.max_timing_change : ℚ) * (-0.3))
    { n with
        adjusted_start_time := n.adjusted_start_time + accel,
        adjusted_velocity := min 127 (pyInt ((n.adjusted_velocity : ℚ) * 1.03)) }
  else n

/-- `melody_rules.PhraseEndRule.apply`. -/
def PhraseEndRule.apply (c : Ctx) (n : Note) : Note :=
  if 0.9 < n.phrase_position then
    let delay := pyInt ((c.max_timing_change : ℚ) * 0.8)
    let n := { n with adjusted_start_time := n.adjusted_start_time + delay }
    let n :=
      if 480 < n.original_duration then
        { n with adjusted_duration := (
            pyInt ((n.adjusted_duration : ℚ) * (1 + 0.1 * c.articulation_strength))) }
      else n
    { n with adjusted_velocity := (
        max 1 (pyInt ((n.velocity : ℚ) * (1 - 0.05 * c.dynamics_strength)))) }
  else n

/-- `melody_rules.PreLeapRule.apply`; the second component is the
velocity accent it puts on the landing note. -/
def PreLeapRule.apply (c : Ctx) (n : Note) : Note × (Note → Note) :=
  if 4 < |n.interval_to_next| ∧ n.hasNext then
    let timing_change :=
      if 0 < n.interval_to_next then pyInt ((c.max_timing_change : ℚ) * (-0.12))
      else pyInt ((c.max_timing_change : ℚ) * 0.15)
    let factor : ℚ := 1 - 0.12 * c.articulation_strength
    let n' := { n with
        adjusted_start_time := n.adjusted_start_time + timing_change,
        adjusted_duration := max 3 (pyInt ((n.adjusted_duration : ℚ) * factor)) }
    (n', fun m => { m with adjusted_velocity := (
        min 127 (pyInt ((m.velocity : ℚ) * (1 + 0.12 * c.dynamics_strength)))) })
  else (n, id)

/-- `melody_rules.LocalPeakRule.apply`. -/
def LocalPeakRule.apply (c : Ctx) (n : Note) : Note :=
  if n.hasPrev ∧ n.hasNext ∧ n.prevPitch < n.pitch ∧ n.nextPitch < n.pitch then
    { n with
        adjusted_start_time := n.adjusted_start_time + pyInt ((c.max_timing_change : ℚ) * 0.9),
        adjusted_velocity := min 127 (pyInt ((n.velocity : ℚ) * (1 + 0.15 * c.dynamics_strength))) }
  else n

/-- `melody_rules.DownbeatRule.apply`. -/
def DownbeatRule.apply (c : Ctx) (n : Note) : Note :=
  if n.is_downbeat then
    { n with
        adjusted_start_time := n.adjusted_start_time + pyInt ((c.max_timing_change : ℚ) * 0.5),
        adjusted_velocity := min 127 (pyInt ((n.velocity : ℚ) * (1 + 0.1 * c.dynamics_strength))) }
  else n

/-- `melody_rules.ShortNoteRule.apply`. -/
def ShortNoteRule.apply (c : Ctx) (n : Note) : Note :=
  let relative_duration : ℚ := (n.original_duration : ℚ) / (c.ticks_per_beat : ℚ)
  if relative_duration < 0.25 then
    let reduction_factor : ℚ :=
      if relative_duration ≤ 0.0625 then 1 - 0.05 * c.articulation_strength
      else if relative_duration ≤ 0.125 then 1 - 0.08 * c.articulation_strength
      else 1 - (0.08 * 0.75) * c.articulation_strength
    let min_duration : ℤ := max 2 (pyInt ((c.ticks_per_beat : ℚ) * relative_duration * 0.5))
    { n with
        adjusted_duration := max min_duration (pyInt ((n.adjusted_duration : ℚ) * reduction_factor)),
        adjusted_velocity := min 127 (pyInt ((n.velocity : ℚ) * (1 + 0.06 * c.dynamics_strength))) }
  else n

/-- `melody_rules.LongNoteRule.apply`. -/
def LongNoteRule.apply (c : Ctx) (n : Note) : Note :=
  let threshold_ticks := pyInt ((c.ticks_per_beat : ℚ) * 1.0)
  if threshold_ticks < n.original_duration then
    { n with adjusted_velocity := (
        min 127 (pyInt ((n.velocity : ℚ) * (1 + 0.05 * c.dynamics_strength)))) }
  else n

/-- `melody_rules.AccelerandoRule.apply`. -/
def AccelerandoRule.apply (c : Ctx) (n : Note) : Note :=
  if n.hasPrev ∧ n.hasNext then
    if n.prevPitch < n.pitch ∧ n.pitch < n.nextPitch ∧
        2 ≤ (n.pitch - n.prevPitch) + (n.nextPitch - n.pitch) then
      { n with
          adjusted_start_time := (
            n.adjusted_start_time + pyInt ((c.max_timing_change : ℚ) * (-0.7))),
          adjusted_velocity := (
            min 127 (pyInt ((n.adjusted_velocity : ℚ) * (1 + 0.05 * c.dynamics_strength)))) }
    else n
  else n

/-- `len(set(seq[-i:])) == 1` for a nonempty suffix. -/
def seqAllEqLast (s : List ℤ) (i : ℕ) : Bool :=
  match s.drop (s.length - i) with
  | [] => true
  | x :: xs => xs.all (fun y => y == x)

/-- The run-length loop of `SequenceAccelerationRule`: for `i` from 3
while the last `i` intervals are all equal, remember `i - 1`. -/
def seqPosLoop (s : List ℤ) : ℕ → ℕ → ℕ → ℕ
  | 0, _, pos => pos
  | fuel + 1, i, pos =>
    if i ≤ s.length then
      if seqAllEqLast s i then seqPosLoop s fuel (i + 1) (i - 1) else pos
    else pos

/-- `sequence_position` computed by `SequenceAccelerationRule.apply`. -/
def seqRunPos (s : List ℤ) : ℕ := seqPosLoop s (s.length + 1) 3 0

/-- `melody_rules.SequenceAccelerationRule.apply`; the list argument is
the rule's `current_sequence` state (the per-note bookkeeping dictionary
`sequence_positions` is never read back and is omitted). -/
def SequenceAccelerationRule.apply (c : Ctx) (seq : List ℤ) (n : Note) : Note × List ℤ :=
  if n.hasPrev then
    let seq := seq ++ [n.interval_to_prev]
    let seq := if 5 < seq.length then seq.drop 1 else seq
    if 3 ≤ seq.length ∧ seq.getD (seq.length - 1) 0 = seq.getD (seq.length - 2) 1 then
      let sequence_position := seqRunPos seq
      let accel_factor : ℚ := max ((-0.6) * (1 + (sequence_position : ℚ) * 0.1)) (-0.9)
      let timing_change := pyInt ((c.max_timing_change : ℚ) * accel_factor)
      let dynamic_increase : ℚ := 0.05 * (sequence_position : ℚ)
      ({ n with
          adjusted_start_time := n.adjusted_start_time + timing_change,
          adjusted_velocity := (
            min 127 (pyInt ((n.adjusted_velocity : ℚ) * (1 + dynamic_increase)))) }, seq)
    else (n, seq)
  else (n, seq)

/-- `melody_rules.DirectionalRule.apply`. -/
def DirectionalRule.apply (c : Ctx) (n : Note) : Note :=
  let interval := n.interval_to_prev
  if |interval| < 2 then n
  else
    let timing_factor : ℚ := if 0 < interval then -0.5 else 0.4
    let velocity_adjustment : ℚ := if 0 < interval then 0.04 else -0.04
    let strength_multiplier : ℚ := min 1.5 ((|interval| : ℚ) / 7)
    let adjusted_factor := timing_factor * strength_multiplier
    let timing_change := c.get_timing_adjustment adjusted_factor
    let dynamic_change := velocity_adjustment * strength_multiplier * c.dynamics_strength
    { n with
        adjusted_start_time := n.adjusted_start_time + timing_change,
        adjusted_velocity := (
          min 127 (max 1 (pyInt ((n.adjusted_velocity : ℚ) * (1 + dynamic_change))))) }

/-- `bass_rules.BassDownbeatRule.apply`. -/
def BassDownbeatRule.apply (c : Ctx) (n : Note) : Note :=
  if n.is_downbeat then
    { n with
        adjusted_start_time := n.adjusted_start_time + pyInt ((c.max_timing_change : ℚ) * 0.3),
        adjusted_velocity := min 127 (pyInt ((n.velocity : ℚ) * (1 + 0.08 * c.dynamics_strength))) }
  else n

/-- `bass_rules.BassShortNoteRule.apply`. -/
def BassShortNoteRule.apply (c : Ctx) (n : Note) : Note :=
  if (n.original_duration : ℚ) < (c.ticks_per_beat : ℚ) / 2 then
    let min_duration := max 4 (pyInt ((n.original_duration : ℚ) * 0.12))
    let reduction_factor : ℚ :=
      if (n.original_duration : ℚ) < (c.ticks_per_beat : ℚ) / 4 then
        1 - 0.06 * c.articulation_strength
      else 1 - 0.08 * c.articulation_strength
    { n with adjusted_duration := (
        max min_duration (pyInt ((n.adjusted_duration : ℚ) * reduction_factor))) }
  else n

/-- The repetition-count state of `BassRepeatedNotesRule`, keyed by
`(track, channel, pitch)`. -/
def repsGet (reps : List ((ℤ × ℤ × ℤ) × ℕ)) (k : ℤ × ℤ × ℤ) : Option ℕ :=
  (reps.find? (fun p => p.1 == k)).map (fun p => p.2)

/-- Dict write for the repetition-count state. -/
def repsSet (reps : List ((ℤ × ℤ × ℤ) × ℕ)) (k : ℤ × ℤ × ℤ) (v : ℕ) :
    List ((ℤ × ℤ × ℤ) × ℕ) :=
  if reps.any (fun p => p.1 == k) then reps.map (fun p => if p.1 == k then (k, v) else p)
  else reps ++ [(k, v)]

/-- Dict delete for the repetition-count state. -/
def repsDel (reps : List ((ℤ × ℤ × ℤ) × ℕ)) (k : ℤ × ℤ × ℤ) :
    List ((ℤ × ℤ × ℤ) × ℕ) :=
  reps.filter (fun p => !(p.1 == k))

/-- `bass_rules.BassRepeatedNotesRule.apply`; `rv` and `rdv` are the two
unseeded `random.uniform` draws (velocity and duration jitter). -/
def BassRepeatedNotesRule.apply (c : Ctx) (reps : List ((ℤ × ℤ × ℤ) × ℕ))
    (rv rdv : ℚ) (n : Note) : Note × List ((ℤ × ℤ × ℤ) × ℕ) :=
  if n.hasPrev ∧ n.pitch = n.prevPitch then
    let key := (n.track, n.channel, n.pitch)
    let reps :=
      match repsGet reps key with
      | none => repsSet reps key 1
      | some cnt => repsSet reps key (cnt + 1)
    let repetition_count := (repsGet reps key).getD 1
    let min_duration := max 4 (pyInt ((n.original_duration : ℚ) * 0.15))
    let random_vel_factor := rv * c.dynamics_strength
    let n := { n with adjusted_velocity := (
        min 127 (max 1 (pyInt ((n.velocity : ℚ) * (1 + random_vel_factor))))) }
    let n :=
      if 3 ≤ repetition_count then
        let repetition_factor : ℚ := min 1 (((repetition_count : ℚ) - 3 + 1) * 0.2)
        let acceleration : ℚ := max ((-0.04) * repetition_factor * c.rubato_strength) (-0.2)
        let n := { n with adjusted_start_time := (
            n.adjusted_start_time + pyInt ((c.max_timing_change : ℚ) * acceleration)) }
        if 3 + 1 < repetition_count then
          let dynamic_boost : ℚ := min 0.15 (0.03 * ((repetition_count : ℚ) - 3))
          { n with adjusted_velocity := (
              min 127 (pyInt ((n.adjusted_velocity : ℚ) * (1 + dynamic_boost)))) }
        else n
      else n
    let n :=
      if (c.ticks_per_beat : ℚ) / 4 < (n.original_duration : ℚ) then
        let random_dur_factor := rdv * c.articulation_strength
        { n with adjusted_duration := (
            max min_duration (pyInt ((n.adjusted_duration : ℚ) * (1 + random_dur_factor)))) }
      else n
    (n, reps)
  else
    (n, repsDel reps (n.track, n.channel, n.pitch))

/-- `bass_rules.BassPhraseEndRule.apply`. -/
def BassPhraseEndRule.apply (c : Ctx) (n : Note) : Note :=
  if 0.9 < n.phrase_position then
    let min_duration_ticks := pyInt ((c.ticks_per_beat : ℚ) * 1.0)
    if min_duration_ticks < n.original_duration then
      { n with adjusted_duration := (
          pyInt ((n.adjusted_duration : ℚ) * (1 + 0.15 * c.articulation_strength))) }
    else n
  else n

/-- `inner_voice_rules.InnerVoiceBaseVelocityRule.apply`. -/
def InnerVoiceBaseVelocityRule.apply (c : Ctx) (n : Note) : Note :=
  { n with adjusted_velocity := (
      max 1 (pyInt ((n.velocity : ℚ) * (1 - 0.05 * c.dynamics_strength)))) }

/-- `inner_voice_rules.InnerContourRule.apply`. -/
def InnerContourRule.apply (c : Ctx) (n : Note) : Note :=
  if n.hasPrev ∧ n.hasNext then
    if (n.prevPitch < n.pitch ∧ n.nextPitch < n.pitch) ∨
        (n.pitch < n.prevPitch ∧ n.pitch < n.nextPitch) then
      { n with adjusted_velocity := (
          min 127 (pyInt ((n.adjusted_velocity : ℚ) * (1 + 0.08 * c.dynamics_strength)))) }
    else n
  else n

/-- `inner_voice_rules.InnerConsonantRule.apply`. -/
def InnerConsonantRule.apply (c : Ctx) (n : Note) : Note :=
  if n.hasPrev then
    if (n.pitch - n.prevPitch).natAbs % 12 ∈ [3, 4, 7, 8, 9] then
      { n with adjusted_duration := (
          pyInt ((n.adjusted_duration : ℚ) * (1 + 0.05 * c.articulation_strength))) }
    else n
  else n

/-- `inner_voice_rules.InnerFlowTimingRule.apply`; `rflow` is the
unseeded uniform draw from `[-max_effect, max_effect]`. -/
def InnerFlowTimingRule.apply (rflow : ℚ) (n : Note) : Note :=
  { n with adjusted_start_time := n.adjusted_start_time + pyInt rflow }

/-- `inner_voice_rules.InnerShortNoteRule.apply`. -/
def InnerShortNoteRule.apply (c : Ctx) (n : Note) : Note :=
  if (n.original_duration : ℚ) < (c.ticks_per_beat : ℚ) / 4 then
    let calculated_min := max 5 (pyInt ((n.original_duration : ℚ) * 0.15))
    let reduction_factor : ℚ :=
      if (n.original_duration : ℚ) < (c.ticks_per_beat : ℚ) / 8 then
        1 - 0.02 * c.articulation_strength
      else 1 - 0.05 * c.articulation_strength
    { n with adjusted_duration := (
        max calculated_min (pyInt ((n.adjusted_duration : ℚ) * reduction_factor))) }
  else n

/-!  ## Per-voice rule application (`NoteLevelInterpreter._interpret_voice`)

Rules run in registration order over each note in sequence; the pre-leap
accent is applied to the following note before that note's own rules
run.  The per-note context varies only through the measure-keyed timing
bias, so it is abstracted as a function of the note. -/

/-- Apply the melody rule set in registration order to one note;
returns the note, the pending update for the next note, and the new
sequence-rule state. -/
def applyMelodyRules (c : Ctx) (seq : List ℤ) (n : Note) :
    Note × (Note → Note) × List ℤ :=
  let n := PhraseStartRule.apply c n
  let n := PhraseEndRule.apply c n
  let r := PreLeapRule.apply c n
  let n := LocalPeakRule.apply c r.1
  let n := DownbeatRule.apply c n
  let n := ShortNoteRule.apply c n
  let n := LongNoteRule.apply c n
  let n := AccelerandoRule.apply c n
  let r2 := SequenceAccelerationRule.apply c seq n
  let n := DirectionalRule.apply c r2.1
  (n, r.2, r2.2)

/-- Apply the bass rule set in registration order to one note. -/
def applyBassRules (c : Ctx) (reps : List ((ℤ × ℤ × ℤ) × ℕ)) (rv rdv : ℚ)
    (n : Note) : Note × List ((ℤ × ℤ × ℤ) × ℕ) :=
  let n := BassDownbeatRule.apply c n
  let n := BassShortNoteRule.apply c n
  let r := BassRepeatedNotesRule.apply c reps rv rdv n
  let n := BassPhraseEndRule.apply c r.1
  (n, r.2)

/-- Apply the inner-voice rule set in registration order to one note. -/
def applyInnerRules (c : Ctx) (rflow : ℚ) (n : Note) : Note :=
  let n := InnerVoiceBaseVelocityRule.apply c n
  let n := InnerContourRule.apply c n
  let n := InnerConsonantRule.apply c n
  let n := InnerFlowTimingRule.apply rflow n
  InnerShortNoteRule.apply c n

/-- Melody-voice interpretation loop.  The `pend` argument is the
accent the previous note's pre-leap rule left for this note; it is
applied before the note's own rules run, which is equivalent to the
source's in-place write to the neighbour object. -/
def runMelodyVoice (cOf : Note → Ctx) : List ℤ → (Note → Note) → List Note → List Note
  | _, _, [] => []
  | seq, pend, n :: rest =>
    let r := applyMelodyRules (cOf n) seq (pend n)
    r.1 :: runMelodyVoice cOf r.2.2 r.2.1 rest

/-- Bass-voice interpretation loop; `rands` supplies the per-note
jitter draws. -/
def runBassVoice (cOf : Note → Ctx) :
    List ((ℤ × ℤ × ℤ) × ℕ) → List (ℚ × ℚ) → List Note → List Note
  | _, _, [] => []
  | reps, rands, n :: rest =>
    let r := applyBassRules (cOf n) reps (rands.headD (0, 0)).1 (rands.headD (0, 0)).2 n
    r.1 :: runBassVoice cOf r.2 rands.tail rest

/-- Inner-voice interpretation loop; `rands` supplies the per-note flow
jitter draws. -/
def runInnerVoice (cOf : Note → Ctx) : List ℚ → List Note → List Note
  | _, [] => []
  | rands, n :: rest =>
    applyInnerRules (cOf n) (rands.headD 0) n :: runInnerVoice cOf rands.tail rest

/-- A voice as the interpreter sees it. -/
structure VoiceData where
  role : String
  notes : List Note
  deriving Repr

/-- `NoteLevelInterpreter._interpret_voice`: dispatch on the voice's
role and run the matching rule set over its notes. -/
def interpretVoice (cOf : Note → Ctx) (rands : List (ℚ × ℚ)) (v : VoiceData) :
    VoiceData :=
  let vt := voiceTypeFor v.role
  if vt = "bass" then { v with notes := runBassVoice cOf [] rands v.notes }
  else if vt = "inner" then
    { v with notes := runInnerVoice cOf (rands.map (fun p => p.1)) v.notes }
  else { v with notes := runMelodyVoice cOf [] id v.notes }

/-- A complete run: rule application over all voices followed by the
safety validation pass. -/
def fullRun (tpb : ℕ) (cOf : Note → Ctx) (rands : List (ℚ × ℚ))
    (voices : List VoiceData) : List VoiceData :=
  let interpreted := voices.map (interpretVoice cOf rands)
  interpreted.map (fun v => { v with notes := validateVoiceNotes tpb v.notes })

/-!  ## Agogic map construction (`OrchestralConductor.create_agogic_map`)

The wave code computes with floats and `numpy`; it is embedded over the
reals.  The three unseeded random phases of `_generate_wave_function`
are threaded in as parameters `r1 r2 r3`. -/

noncomputable section AgogicWave

open Classical

/-- `np.linspace(0, T, length)` at index `i`. -/
noncomputable def linspaceAt (T : ℝ) (length i : ℕ) : ℝ :=
  if length ≤ 1 then 0 else T * i / ((length : ℝ) - 1)

/-- The combined (base plus harmonics) wave value of
`_generate_wave_function` at index `i`, before normalization. -/
noncomputable def combinedWaveAt (amplitude frequency complexity r1 r2 r3 : ℝ)
    (length i : ℕ) : ℝ :=
  let x := linspaceAt (2 * Real.pi * frequency * length) length i
  let wave := amplitude * Real.sin x
  if 0 < complexity then
    wave + 0.3 * amplitude * complexity * Real.sin (x * 3.1 + r1 * Real.pi)
      + 0.2 * amplitude * complexity * Real.sin (x * 1.7 + r2 * Real.pi)
      + 0.1 * amplitude * complexity * Real.sin (x * 0.5 + r3 * Real.pi)
  else wave

/-- `OrchestralConductor._generate_wave_function`. -/
noncomputable def generateWaveFunction (length : ℕ)
    (amplitude frequency complexity r1 r2 r3 : ℝ) : List ℝ :=
  let length := if length = 0 then 16 else length
  let amplitude := if amplitude ≤ 0 then 0.5 else amplitude
  let frequency := if frequency ≤ 0 then 0.2 else frequency
  let complexity := if complexity < 0 ∨ 1 < complexity then 0.5 else complexity
  let combined :=
    (List.range length).map (combinedWaveAt amplitude frequency complexity r1 r2 r3 length)
  let max_val := (combined.map (fun v => |v|)).foldr max 0
  if 0 < max_val then combined.map (fun v => v / max_val * amplitude) else combined

/-- `OrchestralConductor._generate_simple_wave` (normal path). -/
noncomputable def generateSimpleWave (length : ℕ) (amplitude : ℝ) : List ℝ :=
  let length := if length = 0 then 16 else length
  let amplitude := if amplitude ≤ 0 then 0.5 else amplitude
  (List.range length).map (fun i : ℕ => amplitude * Real.sin (2 * Real.pi * i / 8))

/-- The degradation tail of `_generate_simple_wave`: alternating
`±0.5 · amplitude` per measure (the guards run before anything that can
fail, so the guarded values are in scope). -/
noncomputable def alternatingWave (length : ℕ) (amplitude : ℝ) : List ℝ :=
  let length := if length = 0 then 16 else length
  let amplitude := if amplitude ≤ 0 then 0.5 else amplitude
  (List.range length).map (fun i : ℕ => amplitude * (if i % 2 = 0 then (0.5 : ℝ) else -0.5))

/-- Read of `modified_wave[i]`. -/
noncomputable def wget (w : List ℝ) (i : ℕ) : ℝ := w.getD i 0

/-- Overlay A of `create_agogic_map`: emphasize one phrase boundary. -/
noncomputable def applyPhraseOverlay (e : ℝ) (mc : ℕ) (w : List ℝ) (b : ℤ × ℤ) :
    List ℝ :=
  let en := b.2
  let s := b.1
  let w1 :=
    if 0 ≤ en ∧ en < (mc : ℤ) then
      let phrase_end_factor : ℝ := min 1 (0.6 + e * 0.4)
      if 0 < en ∧ en < (mc : ℤ) - 1 then
        let w' := (w.set (en - 1).toNat (min (wget w (en - 1).toNat + 0.3 * phrase_end_factor) 1))
        w'.set en.toNat (min (wget w' en.toNat + 0.6 * phrase_end_factor) 1)
      else w
    else w
  if 0 ≤ s ∧ s < (mc : ℤ) then
    if s + 1 < (mc : ℤ) then
      w1.set (s + 1).toNat (max (wget w1 (s + 1).toNat - 0.25 * e) (-1))
    else w1
  else w1

/-- Overlay B of `create_agogic_map`: emphasize one cadence. -/
noncomputable def applyCadenceOverlay (e : ℝ) (mc : ℕ) (w : List ℝ) (cadence : ℤ) :
    List ℝ :=
  if 0 ≤ cadence ∧ cadence < (mc : ℤ) then
    let cadence_factor : ℝ := min 1 (0.8 + e * 0.2)
    let w' := w.set cadence.toNat (min (wget w cadence.toNat + 0.8 * cadence_factor) 1)
    if 0 < cadence then
      w'.set (cadence - 1).toNat (min (wget w' (cadence - 1).toNat + 0.5 * cadence_factor) 1)
    else w'
  else w

/-- Overlay C of `create_agogic_map`: one gravity center reinforces the
sign the wave already has. -/
noncomputable def applyGravityOverlay (e : ℝ) (mc : ℕ) (w : List ℝ) (g : ℤ × ℝ) :
    List ℝ :=
  if 0 ≤ g.1 ∧ g.1 < (mc : ℤ) then
    let gravity_effect := g.2 * e * 0.4
    let cur := wget w g.1.toNat
    if 0 < cur then w.set g.1.toNat (min (cur + gravity_effect) 1)
    else if cur < 0 then w.set g.1.toNat (max (cur - gravity_effect) (-1))
    else w
  else w

/-- `OrchestralConductor.create_agogic_map` (successful path): the
modified wave whose entries the agogic-map dictionary stores for
measures `0, ..., measure_count - 1`. -/
noncomputable def createAgogicMapList (e ws wc : ℝ) (pbs : List (ℤ × ℤ))
    (cads : List ℤ) (gcs : List (ℤ × ℝ)) (statsMc : ℕ) (r1 r2 r3 : ℝ) : List ℝ :=
  let mc := if statsMc = 0 then 16 else statsMc
  let base := generateWaveFunction mc ws 0.15 wc r1 r2 r3
  let w1 := pbs.foldl (applyPhraseOverlay e mc) base
  let w2 := cads.foldl (applyCadenceOverlay e mc) w1
  gcs.foldl (applyGravityOverlay e mc) w2

/-- `OrchestralConductor._create_fallback_agogic_map`: the simple wave
whose entries the fallback dictionary stores. -/
noncomputable def createFallbackAgogicMapList (ws : ℝ) (statsMc : ℕ) : List ℝ :=
  let mc := if statsMc = 0 then 16 else statsMc
  generateSimpleWave mc (ws * 0.7)

/-- The effective measure count both construction paths use. -/
def effectiveMeasureCount (statsMc : ℕ) : ℕ := if statsMc = 0 then 16 else statsMc

end AgogicWave

/-!  ## Characterization shorthands and concrete test inputs  -/

/-- The grouped, start-sorted boundary list `analyze_structure` promotes
from. -/
def sortedGroups (voices : List CVoice) : List (List (ℕ × ℕ × ℕ × String)) :=
  groupBoundaries ((collectBoundaries voices).insertionSort (fun a b => a.1 ≤ b.1))

/-- The rounded average start measure of a boundary group. -/
def groupRoundedStart (g : List (ℕ × ℕ × ℕ × String)) : ℤ :=
  pyRound ((g.map (fun b => (b.1 : ℚ))).sum / (g.length : ℚ))

/-- The rounded average end measure of a boundary group. -/
def groupRoundedEnd (g : List (ℕ × ℕ × ℕ × String)) : ℤ :=
  pyRound ((g.map (fun b => (b.2.1 : ℚ))).sum / (g.length : ℚ))

/-- The agreement ratio of a boundary group among `nv` voices. -/
def groupRatio (nv : ℕ) (g : List (ℕ × ℕ × ℕ × String)) : ℚ :=
  (g.length : ℚ) / (nv : ℚ)

/-- Registered-standard-phrase property at the heart of C2. -/
def PhrStd (tpb : ℕ) (s : List ANote) (x : ℕ × ℕ × String) : Prop :=
  x.2.2 = "standard" ∧ 3 ≤ x.2.1 + 1 - x.1 ∧ x.1 ≤ x.2.1 ∧ x.2.1 + 1 < s.length ∧
  breakAt tpb s (x.2.1 + 1) = true ∧
  (∀ j, x.1 < j → j ≤ x.2.1 → breakAt tpb s j = false) ∧
  (x.1 = 0 ∨ breakAt tpb s x.1 = true)

/-- Scenario-B note: `original_duration = 60` ticks, untouched adjusted
fields. -/
def noteB : Note :=
  { pitch := 60, velocity := 64, original_start_time := 0,
    original_duration := 60, track := 0, channel := 0, adjusted_start_time := 0,
    adjusted_duration := 60, adjusted_velocity := 64, is_downbeat := false,
    phrase_position := 0.5, interval_to_prev := 0, interval_to_next := 0,
    hasPrev := false, hasNext := false, prevPitch := 0, nextPitch := 0 }

/-- Scenario-B context: `ticks_per_beat = 480`,
`articulation_strength = 1.0`, other strengths at their defaults. -/
def ctxB : Ctx :=
  { ticks_per_beat := 480, expressiveness := 0.5, rubato_strength := 0.6,
    articulation_strength := 1, dynamics_strength := 0.7,
    timing_direction_bias := 0 }

/-- A quarter note (1 beat at 480 ticks per beat) whose adjusted
duration was driven down to 1 tick before validation. -/
def noteQuarterCrushed : Note :=
  { noteB with original_duration := 480, adjusted_duration := 1 }

/-- A short note (60 of 480 ticks) whose adjusted duration was driven
down to 10 ticks before validation. -/
def noteShortCrushed : Note :=
  { noteB with original_duration := 60, adjusted_duration := 10 }

/-- Eight contiguous quarter notes on one pitch: no gap, no long note,
no leap; the fifth note starts measure 2 (a downbeat). -/
def quarterRun : List ANote :=
  (List.range 8).map (fun i => { ost := 480 * i, dur := 480, pitch := 60 })

/-- A voice whose single phrase spans measures 0 to 3. -/
def cvLow : CVoice := { noteStarts := [0, 5760], phrases := [(0, 1, "standard")] }

/-- A voice whose single phrase spans measures 10 to 11. -/
def cvHigh : CVoice := { noteStarts := [19200, 21120], phrases := [(0, 1, "standard")] }

/-- Four voices of which only one has a phrase starting near measure 0:
below the claim's `⌈4/3⌉ = 2` threshold, at the source's
`max(1, 4 // 3) = 1` threshold. -/
def cvExample : List CVoice := [cvLow, cvHigh, cvHigh, cvHigh]

/-!  # Theorems  -/

/-- C3, counterexample: for a 60-tick note at 480 ticks per beat with
`articulation_strength = 1.0`, `ShortNoteRule` does *not* produce the
claimed `round(60 × 0.94) = 56`: the relative duration `60/480 = 0.125`
satisfies the sixteenth-tier bound `≤ short_threshold = 0.125`, so the
eighth-note tier is never reached. -/
theorem ShortNoteRule_eighth_tier_counterexample :
    (ShortNoteRule.apply ctxB noteB).adjusted_duration ≠ 56 := by
  norm_num [ShortNoteRule.apply, ctxB, noteB, pyInt]

/-- C3, amended: a note with `original_duration = 60` ticks at
`ticks_per_beat = 480` and `articulation_strength = 1.0` falls in the
sixteenth-note tier (relative duration `0.125 ≤ 0.125`), giving
reduction factor `1 − 0.08 = 0.92` and
`adjusted_duration = max(30, int(60 × 0.92)) = 55`. -/
theorem ShortNoteRule_sixteenth_tier_at_60_ticks :
    (ShortNoteRule.apply ctxB noteB).adjusted_duration = 55 := by
  norm_num [ShortNoteRule.apply, ctxB, noteB, pyInt]

/-- C4, counterexample: with zero voices the synthesized default
structure has no gravity-center entries at measures 3 and 11 (they sit
at 4 and 12, since the source uses `mid = i + 4`). -/
theorem defaultStructure_gravity_centers_counterexample :
    (analyzeStructure []).gravity_centers.lookup 3 = none ∧
    (analyzeStructure []).gravity_centers.lookup 11 = none := by decide

/-- C4, amended: zero voices yield the default 16-measure structure
with phrase boundaries `[0-7]` and `[8-15]`, cadences at 7 and 15 with
gravity `0.6`, and gravity centers at measures 4 and 12 with `0.3`. -/
theorem defaultStructure_for_empty_voices :
    analyzeStructure [] =
      { measure_count := 16, phrase_boundaries := [(0, 7), (8, 15)],
        cadences := [7, 15],
        gravity_centers := [(7, 0.6), (4, 0.3), (15, 0.6), (12, 0.3)] } := by
  norm_num [analyzeStructure, createDefaultStructure, dictInsert, List.range_succ]

/-- C9: the step-4 interpolation inserts exactly one midpoint per
adjacent pair of the sorted point list whose time gap exceeds 8 beats,
at the temporal midpoint with the linearly interpolated middle value —
and for Scenario D (two points 40 beats apart, values 30 and 90) the
result is exactly one inserted midpoint `(20, 60)`. -/
theorem midpoint_insertion_one_per_gap :
    (∀ pts : List (ℚ × ℤ),
      midInserted pts = (pts.zip pts.tail).filterMap (fun pq =>
        if 8 < pq.2.1 - pq.1.1 then
          some (pq.1.1 + (pq.2.1 - pq.1.1) / 2,
            pyInt ((pq.1.2 : ℚ) + ((pq.2.2 : ℚ) - (pq.1.2 : ℚ)) / 2))
        else none)) ∧
    interpolateStep [(0, 30), (40, 90)] = [(0, 30), (20, 60), (40, 90)] := by
  constructor
  · intro pts
    induction pts with
    | nil => rfl
    | cons p rest ih =>
      cases rest with
      | nil => rfl
      | cons q rest' =>
        simp only [midInserted, List.zip_cons_cons, List.tail_cons,
          List.filterMap_cons] at ih ⊢
        split <;> simp [ih]
  · norm_num [interpolateStep, midInserted, pyInt, List.insertionSort,
      List.orderedInsert]

/-- C10: every role other than `"bass"` and `"inner_voice"` — in
particular the initial `"unknown"` — dispatches to the `"melody"` rule
set, which is a key of the rule-set table, while `"unknown"` is not a
key (so no voice is skipped for an unrecognized role). -/
theorem unknown_role_dispatches_to_melody (role : String)
    (h1 : role ≠ "bass") (h2 : role ≠ "inner_voice") :
    voiceTypeFor role = "melody" ∧ voiceTypeFor role ∈ ruleSetKeys ∧
    "unknown" ∉ ruleSetKeys := by
  refine ⟨?_, ?_, by decide⟩ <;> simp [voiceTypeFor, ruleSetKeys, h1, h2]

theorem unknown_role_dispatches_to_melody_witness :
    ("unknown" : String) ≠ "bass" ∧
    (voiceTypeFor "unknown" = "melody" ∧ voiceTypeFor "unknown" ∈ ruleSetKeys ∧
      "unknown" ∉ ruleSetKeys) :=
  ⟨by decide, unknown_role_dispatches_to_melody "unknown" (by decide) (by decide)⟩

/-- The validation floor reads only the original fields, so it is
unchanged by a write to `adjusted_duration`. -/
theorem codeMinDuration_adjusted_irrel (tpb : ℕ) (n : Note) (d : ℤ) :
    codeMinDuration tpb { n with adjusted_duration := d } = codeMinDuration tpb n := rfl

/-- One-note idempotence of the validation pass: a second application
changes nothing, since the floor depends only on the unchanged original
duration. -/
theorem validateNote_idem (tpb : ℕ) (n : Note) :
    (validateNote tpb (validateNote tpb n).1).1 = (validateNote tpb n).1 := by
  unfold validateNote
  dsimp only
  split_ifs <;> simp_all [codeMinDuration_adjusted_irrel]

/-- C7: the safety validation pass is idempotent over every collection
of voices — the second run changes no note. -/
theorem validation_pass_idempotent (tpb : ℕ) (voices : List (List Note)) :
    validatePass tpb (validatePass tpb voices) = validatePass tpb voices := by
  unfold validatePass validateVoiceNotes
  rw [List.map_map]
  refine List.map_congr_left (fun l _ => ?_)
  simp only [Function.comp]
  rw [List.map_map]
  exact List.map_congr_left (fun n _ => validateNote_idem tpb n)

/-- C1, counterexample: a quarter note (`relative duration 1`) whose
adjusted duration was crushed to 1 tick is left at 1 tick by the
validation pass, far below the claimed floor
`max(240, int(480 × 0.6)) = 288` of its "else" (60%) tier — notes
longer than a quarter of a beat are never validated. -/
theorem validation_skips_long_notes_counterexample :
    (validateNote 480 noteQuarterCrushed).1.adjusted_duration = 1 ∧
    codeMinDuration 480 noteQuarterCrushed = 288 := by
  constructor <;>
    norm_num [validateNote, codeMinDuration, tierPercent, noteQuarterCrushed,
      noteB, pyInt]

/-- C1, amended: for a note whose original relative duration is at most
`0.25` beats, the pass raises `adjusted_duration` to the floor
`max(max(2, int(tpb·rel·0.5)), int(original · tier%))` (tiers
90%/80%/70%) whenever it is below it, flags the correction critical
exactly when the pre-correction value was below half the floor; a note
whose relative duration exceeds `0.25` beats is left unchanged. -/
theorem validation_floor_amended (tpb : ℕ) (n : Note)
    (h : (n.original_duration : ℚ) / (tpb : ℚ) ≤ 0.25) :
    codeMinDuration tpb n ≤ (validateNote tpb n).1.adjusted_duration ∧
    ((validateNote tpb n).1.adjusted_duration = n.adjusted_duration ∨
      (validateNote tpb n).1.adjusted_duration = codeMinDuration tpb n) ∧
    ((validateNote tpb n).2.2 = true ↔
      (n.adjusted_duration : ℚ) < (codeMinDuration tpb n : ℚ) * 0.5) ∧
    (∀ m : Note, ¬ ((m.original_duration : ℚ) / (tpb : ℚ) ≤ 0.25) →
      (validateNote tpb m).1 = m) := by
  have hmd : (2 : ℤ) ≤ codeMinDuration tpb n := by
    unfold codeMinDuration
    exact le_trans (le_max_left _ _) (le_max_left _ _)
  unfold validateNote
  rw [if_pos h]
  dsimp only
  refine ⟨?_, ?_, ?_, ?_⟩
  · split_ifs with h2
    · simp
    · simpa using le_of_not_lt h2
  · split_ifs with h2 <;> simp
  · split_ifs with h2
    · simp
    · push_neg at h2
      simp only [Bool.false_eq_true, false_iff, not_lt]
      have h2q : (codeMinDuration tpb n : ℚ) ≤ (n.adjusted_duration : ℚ) := by
        exact_mod_cast h2
      have hmdq : (2 : ℚ) ≤ (codeMinDuration tpb n : ℚ) := by exact_mod_cast hmd
      nlinarith
  · intro m hm
    rw [if_neg hm]

/-- `analyze_structure` restated through `sortedGroups` (definitional). -/
theorem analyzeStructure_unfold (voices : List CVoice) :
    analyzeStructure voices =
      if voices.isEmpty then createDefaultStructure 16
      else if (collectBoundaries voices).isEmpty then
        createDefaultStructureFromVoices voices (maxMeasureFound voices)
      else
        let r := (sortedGroups voices).foldl (promoteStep voices.length) ([], [], [])
        { measure_count :=
            max ((((collectBoundaries voices).insertionSort
              (fun a b => a.1 ≤ b.1)).map (fun b => b.2.1)).foldl max 0 + 1)
              (maxMeasureFound voices + 1),
          phrase_boundaries := r.1, cadences := r.2.1, gravity_centers := r.2.2 } :=
  rfl

/-- `analyzeStructureSpec` restated through `sortedGroups`
(definitional). -/
theorem analyzeStructureSpec_unfold (voices : List CVoice) :
    analyzeStructureSpec voices =
      if voices.isEmpty then createDefaultStructure 16
      else if (collectBoundaries voices).isEmpty then
        createDefaultStructureFromVoices voices (maxMeasureFound voices)
      else
        let r := (sortedGroups voices).foldl (promoteStepSpec voices.length) ([], [], [])
        { measure_count :=
            max ((((collectBoundaries voices).insertionSort
              (fun a b => a.1 ≤ b.1)).map (fun b => b.2.1)).foldl max 0 + 1)
              (maxMeasureFound voices + 1),
          phrase_boundaries := r.1, cadences := r.2.1, gravity_centers := r.2.2 } :=
  rfl

/-- The boundary groups of the four-voice example: one group of a
single agreeing voice, one group of three. -/
theorem sortedGroups_cvExample :
    sortedGroups cvExample =
      [[(0, 3, 0, "standard")],
       [(10, 11, 1, "standard"), (10, 11, 2, "standard"), (10, 11, 3, "standard")]] := by
  decide

/-- C5, counterexample: with four voices, a phrase-start group backed by
a single voice is promoted by the source (`max(1, 4 // 3) = 1`) although
the claim's `⌈4/3⌉ = 2` threshold would reject it: the claimed
behaviour (modelled by `analyzeStructureSpec`) produces a different
boundary list on `cvExample`. -/
theorem promotion_threshold_counterexample :
    (analyzeStructure cvExample).phrase_boundaries = [(0, 3), (10, 11)] ∧
    (analyzeStructureSpec cvExample).phrase_boundaries = [(10, 11)] ∧
    (analyzeStructure cvExample).phrase_boundaries ≠
      (analyzeStructureSpec cvExample).phrase_boundaries := by
  have hA : (analyzeStructure cvExample).phrase_boundaries = [(0, 3), (10, 11)] := by
    rw [analyzeStructure_unfold]
    norm_num [sortedGroups_cvExample, promoteStep, pyRound, dictInsert,
      List.map_cons, List.map_nil, List.sum_cons, List.sum_nil,
      show (collectBoundaries cvExample).isEmpty = false from by decide,
      show cvExample.isEmpty = false from rfl,
      show cvExample.length = 4 from rfl]
  have hB : (analyzeStructureSpec cvExample).phrase_boundaries = [(10, 11)] := by
    rw [analyzeStructureSpec_unfold]
    norm_num [sortedGroups_cvExample, promoteStepSpec, pyRound, dictInsert,
      List.map_cons, List.map_nil, List.sum_cons, List.sum_nil,
      show (collectBoundaries cvExample).isEmpty = false from by decide,
      show cvExample.isEmpty = false from rfl,
      show cvExample.length = 4 from rfl]
  exact ⟨hA, hB, by rw [hA, hB]; decide⟩

/-- The promotion fold of `analyze_structure`, split into its three
outputs: phrase boundaries come from every group meeting the
`max(1, voices // 3)` threshold; cadences and gravity entries from the
promoted groups on which at least half the voices agree. -/
theorem promoteStep_foldl_char (nv : ℕ) :
    ∀ (gs : List (List (ℕ × ℕ × ℕ × String)))
      (acc : List (ℤ × ℤ) × List ℤ × List (ℤ × ℚ)),
    gs.foldl (promoteStep nv) acc =
      (acc.1 ++ (gs.filter (fun g => decide (max 1 (nv / 3) ≤ g.length))).map
          (fun g => (groupRoundedStart g, groupRoundedEnd g)),
       acc.2.1 ++ (gs.filter (fun g => decide (max 1 (nv / 3) ≤ g.length) &&
            decide ((1/2 : ℚ) ≤ groupRatio nv g))).map (fun g => groupRoundedEnd g),
       (gs.filter (fun g => decide (max 1 (nv / 3) ≤ g.length) &&
            decide ((1/2 : ℚ) ≤ groupRatio nv g))).foldl
         (fun d g => dictInsert d (groupRoundedEnd g)
           (min 1 (0.7 + groupRatio nv g * 0.3))) acc.2.2) := by
  intro gs
  induction gs with
  | nil => intro acc; simp
  | cons g gs ih =>
    intro acc
    rw [List.foldl_cons, ih]
    by_cases hthr : max 1 (nv / 3) ≤ g.length
    · have hb1 : decide (max 1 (nv / 3) ≤ g.length) = true :=
        decide_eq_true hthr
      by_cases hcad : (1/2 : ℚ) ≤ groupRatio nv g
      · have hb2 : (decide (max 1 (nv / 3) ≤ g.length) &&
            decide ((1/2 : ℚ) ≤ groupRatio nv g)) = true := by
          rw [Bool.and_eq_true]
          exact ⟨decide_eq_true hthr, decide_eq_true hcad⟩
        have hP : promoteStep nv acc g =
            (acc.1 ++ [(groupRoundedStart g, groupRoundedEnd g)],
             acc.2.1 ++ [groupRoundedEnd g],
             dictInsert acc.2.2 (groupRoundedEnd g)
               (min 1 (0.7 + groupRatio nv g * 0.3))) := by
          unfold promoteStep groupRoundedStart groupRoundedEnd groupRatio
          rw [if_pos hthr]
          dsimp only
          rw [if_pos (show (1 : ℚ)/2 ≤ (g.length : ℚ) / (nv : ℚ) from hcad)]
        rw [hP, List.filter_cons, List.filter_cons, if_pos hb1, if_pos hb2,
          List.map_cons, List.map_cons, List.foldl_cons]
        simp only [List.append_assoc, List.singleton_append]
      · have hb2 : (decide (max 1 (nv / 3) ≤ g.length) &&
            decide ((1/2 : ℚ) ≤ groupRatio nv g)) = false := by
          rw [decide_eq_false hcad, Bool.and_false]
        have hP : promoteStep nv acc g =
            (acc.1 ++ [(groupRoundedStart g, groupRoundedEnd g)],
             acc.2.1, acc.2.2) := by
          unfold promoteStep groupRoundedStart groupRoundedEnd
          rw [if_pos hthr]
          dsimp only
          rw [if_neg (show ¬ ((1 : ℚ)/2 ≤ (g.length : ℚ) / (nv : ℚ)) from hcad)]
        rw [hP, List.filter_cons, List.filter_cons, if_pos hb1,
          if_neg (show ¬ _ = true by rw [hb2]; exact Bool.false_ne_true),
          List.map_cons]
        simp only [List.append_assoc, List.singleton_append]
    · have hb1 : decide (max 1 (nv / 3) ≤ g.length) = false :=
        decide_eq_false hthr
      have hb2 : (decide (max 1 (nv / 3) ≤ g.length) &&
          decide ((1/2 : ℚ) ≤ groupRatio nv g)) = false := by
        rw [decide_eq_false hthr, Bool.false_and]
      have hP : promoteStep nv acc g = acc := by
        unfold promoteStep
        rw [if_neg hthr]
      rw [hP, List.filter_cons, List.filter_cons,
        if_neg (show ¬ _ = true by rw [hb1]; exact Bool.false_ne_true),
        if_neg (show ¬ _ = true by rw [hb2]; exact Bool.false_ne_true)]

/-- C5, amended: promotion uses the threshold `max(1, ⌊voices/3⌋)` (not
`⌈voices/3⌉`); among promoted groups, the rounded shared end becomes a
cadence exactly when at least 50% of the voices agree, entering the
gravity table with strength `min(1, 0.7 + 0.3 × agreement-ratio)`. -/
theorem promotion_threshold_amended (voices : List CVoice)
    (h1 : voices ≠ []) (h2 : collectBoundaries voices ≠ []) :
    (analyzeStructure voices).phrase_boundaries =
      ((sortedGroups voices).filter
        (fun g => decide (max 1 (voices.length / 3) ≤ g.length))).map
        (fun g => (groupRoundedStart g, groupRoundedEnd g)) ∧
    (analyzeStructure voices).cadences =
      ((sortedGroups voices).filter
        (fun g => decide (max 1 (voices.length / 3) ≤ g.length) &&
          decide ((1/2 : ℚ) ≤ groupRatio voices.length g))).map
        (fun g => groupRoundedEnd g) ∧
    (analyzeStructure voices).gravity_centers =
      ((sortedGroups voices).filter
        (fun g => decide (max 1 (voices.length / 3) ≤ g.length) &&
          decide ((1/2 : ℚ) ≤ groupRatio voices.length g))).foldl
        (fun d g => dictInsert d (groupRoundedEnd g)
          (min 1 (0.7 + groupRatio voices.length g * 0.3))) [] := by
  rw [analyzeStructure_unfold]
  rw [if_neg (by simp [List.isEmpty_iff, h1]), if_neg (by simp [List.isEmpty_iff, h2])]
  dsimp only
  rw [promoteStep_foldl_char]
  simp

theorem promotion_threshold_amended_witness :
    cvExample ≠ [] ∧
    (analyzeStructure cvExample).phrase_boundaries =
      ((sortedGroups cvExample).filter
        (fun g => decide (max 1 (cvExample.length / 3) ≤ g.length))).map
        (fun g => (groupRoundedStart g, groupRoundedEnd g)) :=
  ⟨by decide,
   (promotion_threshold_amended cvExample (by decide) (by decide)).1⟩

theorem validation_floor_amended_witness :
    ((noteShortCrushed.original_duration : ℚ) / ((480 : ℕ) : ℚ) ≤ 0.25) ∧
    codeMinDuration 480 noteShortCrushed ≤
      (validateNote 480 noteShortCrushed).1.adjusted_duration :=
  ⟨by norm_num [noteShortCrushed, noteB],
   (validation_floor_amended 480 noteShortCrushed
     (by norm_num [noteShortCrushed, noteB])).1⟩

/-- C2, counterexample: on eight contiguous quarter notes (no gap, no
long note, no leap; the fifth note is a downbeat with four notes already
in the phrase) the source registers one phrase while the claim's fourth
closing criterion (modelled by `detectPhrasesSpec`) would close at the
downbeat and register two. -/
theorem phrase_close_criteria_counterexample :
    detectPhrases 480 quarterRun = [(0, 7, "final")] ∧
    detectPhrasesSpec 480 quarterRun = [(0, 3, "standard"), (4, 7, "final")] ∧
    detectPhrases 480 quarterRun ≠ detectPhrasesSpec 480 quarterRun := by
  have hA : detectPhrases 480 quarterRun = [(0, 7, "final")] := by decide
  have hB : detectPhrasesSpec 480 quarterRun =
      [(0, 3, "standard"), (4, 7, "final")] := by
    norm_num [detectPhrasesSpec, quarterRun, sortANotes, List.insertionSort,
      List.orderedInsert, detectScanSpec, phraseBreak, isDownbeatTime,
      List.range_succ]
  exact ⟨hA, hB, by rw [hA, hB]; decide⟩

theorem breakAt_of_get (tpb : ℕ) (s : List ANote) (i : ℕ) (prev cur : ANote)
    (hi : 1 ≤ i) (h1 : s.get? (i - 1) = some prev) (h2 : s.get? i = some cur) :
    breakAt tpb s i = phraseBreak tpb prev cur := by
  unfold breakAt
  rw [if_neg (by omega), h1, h2]

theorem detectScan_invariant (tpb : ℕ) (s : List ANote) :
    ∀ (rest : List ANote) (i start : ℕ) (prev : ANote)
      (acc : List (ℕ × ℕ × String)),
      s.drop i = rest →
      s.get? (i - 1) = some prev →
      1 ≤ i →
      start ≤ i - 1 →
      (∀ j, start < j → j ≤ i - 1 → breakAt tpb s j = false) →
      (start = 0 ∨ breakAt tpb s start = true) →
      (∀ x ∈ acc, PhrStd tpb s x) →
      (∀ x ∈ (detectScan tpb prev rest i start acc).2, PhrStd tpb s x) ∧
      (detectScan tpb prev rest i start acc).1 ≤ s.length - 1 ∧
      (∀ j, (detectScan tpb prev rest i start acc).1 < j → j ≤ s.length - 1 →
        breakAt tpb s j = false) ∧
      ((detectScan tpb prev rest i start acc).1 = 0 ∨
        breakAt tpb s (detectScan tpb prev rest i start acc).1 = true) := by
  intro rest
  induction rest with
  | nil =>
    intro i start prev acc hdrop hget hi hstart hnb hsb hacc
    have hiL : i - 1 < s.length := List.get?_eq_some.mp hget |>.1
    have hLi : s.length ≤ i := by
      by_contra hcon
      push_neg at hcon
      have := List.drop_eq_nil_iff.mp hdrop
      omega
    have hiL2 : i = s.length := by omega
    unfold detectScan
    refine ⟨hacc, by omega, ?_, hsb⟩
    intro j hj1 hj2
    exact hnb j hj1 (by omega)
  | cons cur rest ih =>
    intro i start prev acc hdrop hget hi hstart hnb hsb hacc
    have hcur : s.get? i = some cur := by
      have h0 : (s.drop i).head? = some cur := by rw [hdrop]; rfl
      rw [List.head?_drop] at h0
      rwa [List.get?_eq_getElem?]
    have hdrop' : s.drop (i + 1) = rest := by
      rw [← List.drop_drop, hdrop]
      rfl
    have hiL : i < s.length := List.get?_eq_some.mp hcur |>.1
    have hbk : breakAt tpb s i = phraseBreak tpb prev cur :=
      breakAt_of_get tpb s i prev cur hi hget hcur
    unfold detectScan
    by_cases hbr : phraseBreak tpb prev cur
    · rw [if_pos hbr]
      dsimp only
      have hbi : breakAt tpb s i = true := by rw [hbk]; exact hbr
      have hacc' : ∀ x ∈ (if 2 < i - start then
          acc ++ [(start, i - 1, "standard")] else acc), PhrStd tpb s x := by
        split_ifs with hlen
        · intro x hx
          rcases List.mem_append.mp hx with hx | hx
          · exact hacc x hx
          · rcases List.mem_singleton.mp hx with rfl
            unfold PhrStd
            dsimp only
            refine ⟨rfl, by omega, by omega, by omega, ?_, ?_, hsb⟩
            · have : i - 1 + 1 = i := by omega
              rw [this, hbk]; exact hbr
            · intro j hj1 hj2
              exact hnb j hj1 (by omega)
        · exact hacc
      exact ih (i + 1) i cur _ hdrop' (by simpa using hcur) (by omega) (by omega)
        (by intro j hj1 hj2; omega) (Or.inr hbi) hacc'
    · rw [if_neg hbr]
      have hnb' : ∀ j, start < j → j ≤ (i + 1) - 1 → breakAt tpb s j = false := by
        intro j hj1 hj2
        rcases Nat.lt_or_ge j i with hj | hj
        · exact hnb j hj1 (by omega)
        · have : j = i := by omega
          subst this
          rw [hbk]
          exact Bool.of_not_eq_true hbr
      exact ih (i + 1) start cur acc hdrop' (by simpa using hcur) (by omega)
        (by omega) hnb' hsb hacc

/-- C2, amended: phrase detection scans the start-time-sorted notes and
closes the current phrase exactly when the gap to the previous note's
end exceeds 1 beat, the previous note exceeds 2 beats, or the interval
to the previous note exceeds 7 semitones (there is no downbeat
criterion); every registered phrase has at least 3 notes, contains no
closing condition strictly inside it, a "standard" phrase is closed by a
condition at the following note, and the trailing open phrase is the
unique one of kind "final", ending at the last note. -/
theorem phrase_close_criteria_amended (tpb : ℕ) (notes : List ANote) :
    ∀ st e k, (st, e, k) ∈ detectPhrases tpb notes →
      (k = "standard" ∨ k = "final") ∧
      3 ≤ e + 1 - st ∧ st ≤ e ∧ e < (sortANotes notes).length ∧
      (k = "final" ↔ e = (sortANotes notes).length - 1) ∧
      (∀ j, st < j → j ≤ e → breakAt tpb (sortANotes notes) j = false) ∧
      (k = "standard" → breakAt tpb (sortANotes notes) (e + 1) = true) ∧
      (st = 0 ∨ breakAt tpb (sortANotes notes) st = true) := by
  intro st e k hmem
  rcases hs : sortANotes notes with _ | ⟨h, t⟩
  · simp only [detectPhrases, hs] at hmem
    exact absurd hmem (List.not_mem_nil _)
  · simp only [detectPhrases, hs] at hmem
    have hL : (h :: t).length = t.length + 1 := rfl
    obtain ⟨hP, hle, hnb, hsb⟩ := detectScan_invariant tpb (h :: t) t 1 0 h []
      rfl rfl (by omega) (by omega)
      (by intro j hj1 hj2; omega) (Or.inl rfl) (by intro x hx; cases hx)
    split_ifs at hmem with hfin
    · rcases List.mem_append.mp hmem with hx | hx
      · have hstd := hP _ hx
        simp only [PhrStd] at hstd
        obtain ⟨hk, h3, hse, heL, hbe, hin, hsb2⟩ := hstd
        refine ⟨Or.inl hk, h3, hse, by omega, ?_, hin, fun _ => hbe, hsb2⟩
        constructor
        · intro hkf
          rw [hkf] at hk
          exact absurd hk (by decide)
        · intro heq
          omega
      · have hx2 := List.mem_singleton.mp hx
        simp only [Prod.mk.injEq] at hx2
        obtain ⟨h1, h2, h3⟩ := hx2
        subst h2
        subst h3
        refine ⟨Or.inr rfl, by omega, by omega, by omega,
          ⟨fun _ => rfl, fun _ => rfl⟩, ?_, ?_, ?_⟩
        · intro j hj1 hj2
          rw [h1] at hj1
          exact hnb j hj1 hj2
        · intro hcon
          exact absurd hcon (by decide)
        · rw [h1]
          exact hsb
    · have hstd := hP _ hmem
      simp only [PhrStd] at hstd
      obtain ⟨hk, h3, hse, heL, hbe, hin, hsb2⟩ := hstd
      refine ⟨Or.inl hk, h3, hse, by omega, ?_, hin, fun _ => hbe, hsb2⟩
      constructor
      · intro hkf
        rw [hkf] at hk
        exact absurd hk (by decide)
      · intro heq
        omega


theorem phrase_close_criteria_amended_witness :
    ((0, 7, "final") ∈ detectPhrases 480 quarterRun) ∧
    (("final" : String) = "standard" ∨ ("final" : String) = "final") :=
  ⟨by decide,
   (phrase_close_criteria_amended 480 quarterRun 0 7 "final" (by decide)).1⟩

/-!  ## Frame lemmas: rules and validation write only `adjusted_*`  -/

theorem origFields_phrase_start (c : Ctx) (n : Note) :
    origFields (PhraseStartRule.apply c n) = origFields n := by
  unfold PhraseStartRule.apply
  split_ifs <;> rfl

theorem origFields_phrase_end (c : Ctx) (n : Note) :
    origFields (PhraseEndRule.apply c n) = origFields n := by
  unfold PhraseEndRule.apply
  dsimp only
  split_ifs <;> rfl

theorem origFields_pre_leap (c : Ctx) (n : Note) :
    origFields (PreLeapRule.apply c n).1 = origFields n := by
  unfold PreLeapRule.apply
  split_ifs <;> rfl

theorem origFields_pre_leap_upd (c : Ctx) (n m : Note) :
    origFields ((PreLeapRule.apply c n).2 m) = origFields m := by
  unfold PreLeapRule.apply
  split_ifs <;> rfl

theorem origFields_local_peak (c : Ctx) (n : Note) :
    origFields (LocalPeakRule.apply c n) = origFields n := by
  unfold LocalPeakRule.apply
  split_ifs <;> rfl

theorem origFields_downbeat (c : Ctx) (n : Note) :
    origFields (DownbeatRule.apply c n) = origFields n := by
  unfold DownbeatRule.apply
  split_ifs <;> rfl

theorem origFields_short_note (c : Ctx) (n : Note) :
    origFields (ShortNoteRule.apply c n) = origFields n := by
  unfold ShortNoteRule.apply
  dsimp only
  split_ifs <;> rfl

theorem origFields_long_note (c : Ctx) (n : Note) :
    origFields (LongNoteRule.apply c n) = origFields n := by
  unfold LongNoteRule.apply
  dsimp only
  split_ifs <;> rfl

theorem origFields_accelerando (c : Ctx) (n : Note) :
    origFields (AccelerandoRule.apply c n) = origFields n := by
  unfold AccelerandoRule.apply
  split_ifs <;> rfl

theorem origFields_sequence_accel (c : Ctx) (seq : List ℤ) (n : Note) :
    origFields (SequenceAccelerationRule.apply c seq n).1 = origFields n := by
  unfold SequenceAccelerationRule.apply
  dsimp only
  split_ifs <;> rfl

theorem origFields_directional (c : Ctx) (n : Note) :
    origFields (DirectionalRule.apply c n) = origFields n := by
  unfold DirectionalRule.apply
  dsimp only
  split_ifs <;> rfl

theorem origFields_bass_downbeat (c : Ctx) (n : Note) :
    origFields (BassDownbeatRule.apply c n) = origFields n := by
  unfold BassDownbeatRule.apply
  split_ifs <;> rfl

theorem origFields_bass_short (c : Ctx) (n : Note) :
    origFields (BassShortNoteRule.apply c n) = origFields n := by
  unfold BassShortNoteRule.apply
  dsimp only
  split_ifs <;> rfl

theorem origFields_bass_repeated (c : Ctx) (reps : List ((ℤ × ℤ × ℤ) × ℕ))
    (rv rdv : ℚ) (n : Note) :
    origFields (BassRepeatedNotesRule.apply c reps rv rdv n).1 = origFields n := by
  unfold BassRepeatedNotesRule.apply
  dsimp only
  split_ifs <;> rfl

theorem origFields_bass_phrase_end (c : Ctx) (n : Note) :
    origFields (BassPhraseEndRule.apply c n) = origFields n := by
  unfold BassPhraseEndRule.apply
  dsimp only
  split_ifs <;> rfl

theorem origFields_inner_base (c : Ctx) (n : Note) :
    origFields (InnerVoiceBaseVelocityRule.apply c n) = origFields n := rfl

theorem origFields_inner_contour (c : Ctx) (n : Note) :
    origFields (InnerContourRule.apply c n) = origFields n := by
  unfold InnerContourRule.apply
  split_ifs <;> rfl

theorem origFields_inner_consonant (c : Ctx) (n : Note) :
    origFields (InnerConsonantRule.apply c n) = origFields n := by
  unfold InnerConsonantRule.apply
  split_ifs <;> rfl

theorem origFields_inner_flow (rflow : ℚ) (n : Note) :
    origFields (InnerFlowTimingRule.apply rflow n) = origFields n := rfl

theorem origFields_inner_short (c : Ctx) (n : Note) :
    origFields (InnerShortNoteRule.apply c n) = origFields n := by
  unfold InnerShortNoteRule.apply
  dsimp only
  split_ifs <;> rfl

theorem origFields_validateNote (tpb : ℕ) (n : Note) :
    origFields (validateNote tpb n).1 = origFields n := by
  unfold validateNote
  dsimp only
  split_ifs <;> rfl

theorem origFields_applyMelodyRules (c : Ctx) (seq : List ℤ) (n : Note) :
    origFields (applyMelodyRules c seq n).1 = origFields n ∧
    (∀ m, origFields ((applyMelodyRules c seq n).2.1 m) = origFields m) := by
  unfold applyMelodyRules
  dsimp only
  constructor
  · rw [origFields_directional, origFields_sequence_accel, origFields_accelerando,
      origFields_long_note, origFields_short_note, origFields_downbeat,
      origFields_local_peak, origFields_pre_leap, origFields_phrase_end,
      origFields_phrase_start]
  · intro m
    exact origFields_pre_leap_upd c _ m

theorem origFields_applyBassRules (c : Ctx) (reps : List ((ℤ × ℤ × ℤ) × ℕ))
    (rv rdv : ℚ) (n : Note) :
    origFields (applyBassRules c reps rv rdv n).1 = origFields n := by
  unfold applyBassRules
  dsimp only
  rw [origFields_bass_phrase_end, origFields_bass_repeated,
    origFields_bass_short, origFields_bass_downbeat]

theorem origFields_applyInnerRules (c : Ctx) (rflow : ℚ) (n : Note) :
    origFields (applyInnerRules c rflow n) = origFields n := by
  unfold applyInnerRules
  dsimp only
  rw [origFields_inner_short, origFields_inner_flow, origFields_inner_consonant,
    origFields_inner_contour, origFields_inner_base]

theorem runMelodyVoice_frame (cOf : Note → Ctx) :
    ∀ (l : List Note) (seq : List ℤ) (pend : Note → Note),
      (∀ m, origFields (pend m) = origFields m) →
      (runMelodyVoice cOf seq pend l).map origFields = l.map origFields := by
  intro l
  induction l with
  | nil => intro seq pend _; rfl
  | cons n rest ih =>
    intro seq pend hpend
    unfold runMelodyVoice
    dsimp only
    rw [List.map_cons, List.map_cons]
    refine congrArg₂ List.cons ?_ ?_
    · rw [(origFields_applyMelodyRules (cOf n) seq (pend n)).1, hpend n]
    · exact ih _ _ (origFields_applyMelodyRules (cOf n) seq (pend n)).2

theorem runBassVoice_frame (cOf : Note → Ctx) :
    ∀ (l : List Note) (reps : List ((ℤ × ℤ × ℤ) × ℕ)) (rands : List (ℚ × ℚ)),
      (runBassVoice cOf reps rands l).map origFields = l.map origFields := by
  intro l
  induction l with
  | nil => intro reps rands; rfl
  | cons n rest ih =>
    intro reps rands
    unfold runBassVoice
    dsimp only
    rw [List.map_cons, List.map_cons]
    refine congrArg₂ List.cons ?_ (ih _ _)
    exact origFields_applyBassRules (cOf n) reps _ _ n

theorem runInnerVoice_frame (cOf : Note → Ctx) :
    ∀ (l : List Note) (rands : List ℚ),
      (runInnerVoice cOf rands l).map origFields = l.map origFields := by
  intro l
  induction l with
  | nil => intro rands; rfl
  | cons n rest ih =>
    intro rands
    unfold runInnerVoice
    rw [List.map_cons, List.map_cons]
    exact congrArg₂ List.cons (origFields_applyInnerRules (cOf n) _ n) (ih _)

theorem validateVoiceNotes_frame (tpb : ℕ) (l : List Note) :
    (validateVoiceNotes tpb l).map origFields = l.map origFields := by
  unfold validateVoiceNotes
  rw [List.map_map]
  exact List.map_congr_left (fun n _ => origFields_validateNote tpb n)

theorem interpretVoice_frame (cOf : Note → Ctx) (rands : List (ℚ × ℚ))
    (v : VoiceData) :
    (interpretVoice cOf rands v).notes.map origFields = v.notes.map origFields := by
  unfold interpretVoice
  dsimp only
  split_ifs
  · exact runBassVoice_frame cOf v.notes [] rands
  · exact runInnerVoice_frame cOf v.notes _
  · exact runMelodyVoice_frame cOf v.notes [] id (fun _ => rfl)

/-- C8: a complete run — rule application over all voices followed by
the validation pass — never mutates any note's original fields: pitch,
velocity, original start time, original duration, track and channel are
identical before and after; only the `adjusted_*` fields are written. -/
theorem full_run_preserves_originals (tpb : ℕ) (cOf : Note → Ctx)
    (rands : List (ℚ × ℚ)) (voices : List VoiceData) :
    (fullRun tpb cOf rands voices).map (fun v => v.notes.map origFields) =
      voices.map (fun v => v.notes.map origFields) := by
  unfold fullRun
  dsimp only
  rw [List.map_map, List.map_map]
  refine List.map_congr_left (fun v _ => ?_)
  simp only [Function.comp]
  rw [validateVoiceNotes_frame, interpretVoice_frame]

theorem mem_le_foldr_max (l : List ℝ) (x : ℝ) (hx : x ∈ l) :
    x ≤ l.foldr max 0 := by
  induction l with
  | nil => cases hx
  | cons a t ih =>
    rcases List.mem_cons.mp hx with rfl | hx
    · exact le_max_left _ _
    · exact le_trans (ih hx) (le_max_right _ _)

theorem clampAdd_mem (x c : ℝ) (hx : -1 ≤ x) (hc : 0 ≤ c) :
    -1 ≤ min (x + c) 1 ∧ min (x + c) 1 ≤ 1 :=
  ⟨le_min (by linarith) (by norm_num), min_le_right _ _⟩

theorem clampSub_mem (x c : ℝ) (hx : x ≤ 1) (hc : 0 ≤ c) :
    -1 ≤ max (x - c) (-1) ∧ max (x - c) (-1) ≤ 1 :=
  ⟨le_max_right _ _, max_le (by linarith) (by norm_num)⟩

theorem allIn_set (w : List ℝ) (i : ℕ) (v : ℝ)
    (hw : ∀ x ∈ w, -1 ≤ x ∧ x ≤ 1) (hv : -1 ≤ v ∧ v ≤ 1) :
    ∀ x ∈ w.set i v, -1 ≤ x ∧ x ≤ 1 := by
  intro x hx
  rcases List.mem_or_eq_of_mem_set hx with hx | rfl
  · exact hw x hx
  · exact hv

theorem wget_bounds (w : List ℝ) (i : ℕ)
    (hw : ∀ x ∈ w, -1 ≤ x ∧ x ≤ 1) : -1 ≤ wget w i ∧ wget w i ≤ 1 := by
  unfold wget
  by_cases h : i < w.length
  · rw [List.getD_eq_getElem w 0 h]
    exact hw _ (List.getElem_mem h)
  · rw [List.getD_eq_default]
    · norm_num
    · omega

theorem generateWaveFunction_length (len : ℕ) (a f c r1 r2 r3 : ℝ) :
    (generateWaveFunction len a f c r1 r2 r3).length =
      (if len = 0 then 16 else len) := by
  unfold generateWaveFunction
  dsimp only
  split_ifs <;> simp

theorem generateWaveFunction_mem (len : ℕ) (a f c r1 r2 r3 : ℝ) (ha : a ≤ 1) :
    ∀ x ∈ generateWaveFunction len a f c r1 r2 r3, -1 ≤ x ∧ x ≤ 1 := by
  unfold generateWaveFunction
  dsimp only
  intro x hx
  set A : ℝ := if a ≤ 0 then 0.5 else a with hA
  have hApos : 0 < A := by
    rw [hA]; split_ifs with h
    · norm_num
    · linarith
  have hA1 : A ≤ 1 := by
    rw [hA]; split_ifs with h
    · norm_num
    · exact ha
  set L := if len = 0 then 16 else len with hL
  set C : ℝ := if c < 0 ∨ 1 < c then 0.5 else c with hC
  set F : ℝ := if f ≤ 0 then 0.2 else f with hF
  set combined := (List.range L).map (combinedWaveAt A F C r1 r2 r3 L) with hcomb
  set mv := (combined.map (fun v => |v|)).foldr max 0 with hmv
  split_ifs at hx with hpos
  · rcases List.mem_map.mp hx with ⟨v, hv, rfl⟩
    have h1 : |v| ≤ mv :=
      mem_le_foldr_max _ _ (List.mem_map_of_mem (fun v => |v|) hv)
    have h2 : |v / mv * A| ≤ A := by
      rw [abs_mul, abs_div, abs_of_pos hpos, abs_of_pos hApos]
      calc |v| / mv * A ≤ 1 * A := by
            apply mul_le_mul_of_nonneg_right _ (le_of_lt hApos)
            exact (div_le_one hpos).mpr h1
        _ = A := one_mul A
    have h3 : |v / mv * A| ≤ 1 := le_trans h2 hA1
    exact abs_le.mp h3
  · have h1 : |x| ≤ mv :=
      mem_le_foldr_max _ _ (List.mem_map_of_mem (fun v => |v|) hx)
    have h2 : |x| ≤ 1 := by
      push_neg at hpos
      linarith
    exact abs_le.mp h2

theorem generateSimpleWave_length (len : ℕ) (a : ℝ) :
    (generateSimpleWave len a).length = (if len = 0 then 16 else len) := by
  unfold generateSimpleWave
  dsimp only
  split_ifs <;> rw [List.length_map, List.length_range]

theorem generateSimpleWave_mem (len : ℕ) (a : ℝ) (ha : a ≤ 1) :
    ∀ x ∈ generateSimpleWave len a, -1 ≤ x ∧ x ≤ 1 := by
  unfold generateSimpleWave
  dsimp only
  intro x hx
  set A : ℝ := if a ≤ 0 then 0.5 else a with hA
  have hApos : 0 < A := by
    rw [hA]; split_ifs with h
    · norm_num
    · linarith
  have hA1 : A ≤ 1 := by
    rw [hA]; split_ifs with h
    · norm_num
    · exact ha
  rcases List.mem_map.mp hx with ⟨i, _, rfl⟩
  have h2 : |A * Real.sin (2 * Real.pi * i / 8)| ≤ 1 := by
    rw [abs_mul, abs_of_pos hApos]
    calc A * |Real.sin (2 * Real.pi * i / 8)| ≤ A * 1 :=
          mul_le_mul_of_nonneg_left (Real.abs_sin_le_one _) (le_of_lt hApos)
      _ ≤ 1 := by linarith
  exact abs_le.mp h2

theorem alternatingWave_length (len : ℕ) (a : ℝ) :
    (alternatingWave len a).length = (if len = 0 then 16 else len) := by
  unfold alternatingWave
  dsimp only
  split_ifs <;> rw [List.length_map, List.length_range]

theorem alternatingWave_mem (len : ℕ) (a : ℝ) (ha : a ≤ 1) :
    ∀ x ∈ alternatingWave len a, -1 ≤ x ∧ x ≤ 1 := by
  unfold alternatingWave
  dsimp only
  intro x hx
  set A : ℝ := if a ≤ 0 then 0.5 else a with hA
  have hApos : 0 < A := by
    rw [hA]; split_ifs with h
    · norm_num
    · linarith
  have hA1 : A ≤ 1 := by
    rw [hA]; split_ifs with h
    · norm_num
    · exact ha
  rcases List.mem_map.mp hx with ⟨i, _, rfl⟩
  constructor <;> split_ifs <;> nlinarith

theorem set_clampAdd_preserves (w : List ℝ) (i : ℕ) (c : ℝ) (hc : 0 ≤ c)
    (hw : ∀ x ∈ w, -1 ≤ x ∧ x ≤ 1) :
    (w.set i (min (wget w i + c) 1)).length = w.length ∧
    ∀ x ∈ w.set i (min (wget w i + c) 1), -1 ≤ x ∧ x ≤ 1 :=
  ⟨List.length_set w i _,
   allIn_set w i _ hw (clampAdd_mem (wget w i) c (wget_bounds w i hw).1 hc)⟩

theorem set_clampSub_preserves (w : List ℝ) (i : ℕ) (c : ℝ) (hc : 0 ≤ c)
    (hw : ∀ x ∈ w, -1 ≤ x ∧ x ≤ 1) :
    (w.set i (max (wget w i - c) (-1))).length = w.length ∧
    ∀ x ∈ w.set i (max (wget w i - c) (-1)), -1 ≤ x ∧ x ≤ 1 :=
  ⟨List.length_set w i _,
   allIn_set w i _ hw (clampSub_mem (wget w i) c (wget_bounds w i hw).2 hc)⟩

theorem applyPhraseOverlay_preserves (e : ℝ) (mc : ℕ) (w : List ℝ) (b : ℤ × ℤ)
    (he : 0 ≤ e) (hw : ∀ x ∈ w, -1 ≤ x ∧ x ≤ 1) :
    (applyPhraseOverlay e mc w b).length = w.length ∧
    ∀ x ∈ applyPhraseOverlay e mc w b, -1 ≤ x ∧ x ≤ 1 := by
  unfold applyPhraseOverlay
  dsimp only
  have hfac : (0 : ℝ) ≤ min 1 (0.6 + e * 0.4) := le_min (by norm_num) (by nlinarith)
  have hmid : ∀ u : List ℝ, u.length = w.length → (∀ x ∈ u, -1 ≤ x ∧ x ≤ 1) →
      ((if 0 ≤ b.1 ∧ b.1 < (mc : ℤ) then
          if b.1 + 1 < (mc : ℤ) then
            u.set (b.1 + 1).toNat (max (wget u (b.1 + 1).toNat - 0.25 * e) (-1))
          else u
        else u).length = w.length ∧
       ∀ x ∈ (if 0 ≤ b.1 ∧ b.1 < (mc : ℤ) then
          if b.1 + 1 < (mc : ℤ) then
            u.set (b.1 + 1).toNat (max (wget u (b.1 + 1).toNat - 0.25 * e) (-1))
          else u
        else u), -1 ≤ x ∧ x ≤ 1) := by
    intro u hlen hu
    split_ifs
    · have hs := set_clampSub_preserves u (b.1 + 1).toNat (0.25 * e) (by nlinarith) hu
      exact ⟨hs.1.trans hlen, hs.2⟩
    · exact ⟨hlen, hu⟩
    · exact ⟨hlen, hu⟩
  by_cases hc1 : 0 ≤ b.2 ∧ b.2 < (mc : ℤ)
  · rw [if_pos hc1]
    by_cases hc2 : 0 < b.2 ∧ b.2 < (mc : ℤ) - 1
    · rw [if_pos hc2]
      have h1 := set_clampAdd_preserves w (b.2 - 1).toNat
        (0.3 * min 1 (0.6 + e * 0.4)) (by nlinarith) hw
      have h2 := set_clampAdd_preserves _ (b.2).toNat
        (0.6 * min 1 (0.6 + e * 0.4)) (by nlinarith) h1.2
      exact hmid _ (h2.1.trans h1.1) h2.2
    · rw [if_neg hc2]
      exact hmid w rfl hw
  · rw [if_neg hc1]
    exact hmid w rfl hw

theorem applyCadenceOverlay_preserves (e : ℝ) (mc : ℕ) (w : List ℝ) (cd : ℤ)
    (he : 0 ≤ e) (hw : ∀ x ∈ w, -1 ≤ x ∧ x ≤ 1) :
    (applyCadenceOverlay e mc w cd).length = w.length ∧
    ∀ x ∈ applyCadenceOverlay e mc w cd, -1 ≤ x ∧ x ≤ 1 := by
  unfold applyCadenceOverlay
  dsimp only
  have hfac : (0 : ℝ) ≤ min 1 (0.8 + e * 0.2) := le_min (by norm_num) (by nlinarith)
  by_cases hc1 : 0 ≤ cd ∧ cd < (mc : ℤ)
  · rw [if_pos hc1]
    have h1 := set_clampAdd_preserves w cd.toNat
      (0.8 * min 1 (0.8 + e * 0.2)) (by nlinarith) hw
    by_cases hc2 : 0 < cd
    · rw [if_pos hc2]
      have h2 := set_clampAdd_preserves _ (cd - 1).toNat
        (0.5 * min 1 (0.8 + e * 0.2)) (by nlinarith) h1.2
      exact ⟨h2.1.trans h1.1, h2.2⟩
    · rw [if_neg hc2]
      exact h1
  · rw [if_neg hc1]
    exact ⟨rfl, hw⟩

theorem applyGravityOverlay_preserves (e : ℝ) (mc : ℕ) (w : List ℝ) (g : ℤ × ℝ)
    (he : 0 ≤ e) (hg : 0 ≤ g.2) (hw : ∀ x ∈ w, -1 ≤ x ∧ x ≤ 1) :
    (applyGravityOverlay e mc w g).length = w.length ∧
    ∀ x ∈ applyGravityOverlay e mc w g, -1 ≤ x ∧ x ≤ 1 := by
  unfold applyGravityOverlay
  dsimp only
  have hge : (0 : ℝ) ≤ g.2 * e * 0.4 := by nlinarith
  by_cases hc1 : 0 ≤ g.1 ∧ g.1 < (mc : ℤ)
  · rw [if_pos hc1]
    by_cases hc2 : 0 < wget w g.1.toNat
    · rw [if_pos hc2]
      exact set_clampAdd_preserves w g.1.toNat _ hge hw
    · rw [if_neg hc2]
      by_cases hc3 : wget w g.1.toNat < 0
      · rw [if_pos hc3]
        exact set_clampSub_preserves w g.1.toNat _ hge hw
      · rw [if_neg hc3]
        exact ⟨rfl, hw⟩
  · rw [if_neg hc1]
    exact ⟨rfl, hw⟩

theorem foldl_wave_preserves {α : Type} (f : List ℝ → α → List ℝ) :
    ∀ (l : List α) (w : List ℝ),
      (∀ u a, a ∈ l → (∀ x ∈ u, -1 ≤ x ∧ x ≤ 1) →
        (f u a).length = u.length ∧ ∀ x ∈ f u a, -1 ≤ x ∧ x ≤ 1) →
      (∀ x ∈ w, -1 ≤ x ∧ x ≤ 1) →
      (l.foldl f w).length = w.length ∧ ∀ x ∈ l.foldl f w, -1 ≤ x ∧ x ≤ 1 := by
  intro l
  induction l with
  | nil => intro w _ hw; exact ⟨rfl, hw⟩
  | cons a t ih =>
    intro w hf hw
    rw [List.foldl_cons]
    have h1 := hf w a (List.mem_cons_self a t) hw
    have h2 := ih (f w a) (fun u b hb hu => hf u b (List.mem_cons_of_mem a hb) hu) h1.2
    exact ⟨h2.1.trans h1.1, h2.2⟩

/-- C6: after `create_agogic_map` completes — on the successful path and
on both internal-failure fallbacks (the reduced-strength single sinusoid
and the alternating `±0.5` wave) — the agogic map is dense over
`[0, measure_count)` with every stored value in `[-1, 1]`. -/
theorem agogic_map_dense_and_bounded (e ws wc : ℝ) (pbs : List (ℤ × ℤ))
    (cads : List ℤ) (gcs : List (ℤ × ℝ)) (statsMc : ℕ) (r1 r2 r3 : ℝ)
    (he : 0 ≤ e) (hws : ws ≤ 1) (hg : ∀ p ∈ gcs, 0 ≤ p.2) :
    (∀ m < effectiveMeasureCount statsMc, ∃ v,
      (createAgogicMapList e ws wc pbs cads gcs statsMc r1 r2 r3).get? m = some v ∧
      -1 ≤ v ∧ v ≤ 1) ∧
    (∀ m < effectiveMeasureCount statsMc, ∃ v,
      (createFallbackAgogicMapList ws statsMc).get? m = some v ∧ -1 ≤ v ∧ v ≤ 1) ∧
    (∀ a : ℝ, a ≤ 1 → ∀ m < effectiveMeasureCount statsMc, ∃ v,
      (alternatingWave (effectiveMeasureCount statsMc) a).get? m = some v ∧
      -1 ≤ v ∧ v ≤ 1) := by
  have hmc : effectiveMeasureCount statsMc ≠ 0 := by
    unfold effectiveMeasureCount
    split_ifs with h <;> omega
  have hdense : ∀ (w : List ℝ), w.length = effectiveMeasureCount statsMc →
      (∀ x ∈ w, -1 ≤ x ∧ x ≤ 1) →
      ∀ m < effectiveMeasureCount statsMc, ∃ v, w.get? m = some v ∧ -1 ≤ v ∧ v ≤ 1 := by
    intro w hlen hw m hm
    have hmw : m < w.length := by omega
    refine ⟨w.get ⟨m, hmw⟩, ?_, hw _ (List.get_mem w m hmw)⟩
    exact List.get?_eq_get hmw
  refine ⟨?_, ?_, ?_⟩
  · -- successful path
    unfold createAgogicMapList
    dsimp only
    have hbaseLen : (generateWaveFunction (if statsMc = 0 then 16 else statsMc)
        ws 0.15 wc r1 r2 r3).length = effectiveMeasureCount statsMc := by
      rw [generateWaveFunction_length]
      unfold effectiveMeasureCount
      split_ifs with h <;> simp [h]
    have hbaseMem := generateWaveFunction_mem (if statsMc = 0 then 16 else statsMc)
      ws 0.15 wc r1 r2 r3 hws
    have h1 := foldl_wave_preserves (applyPhraseOverlay e (if statsMc = 0 then 16 else statsMc)) pbs _
      (fun u a _ hu => applyPhraseOverlay_preserves e _ u a he hu) hbaseMem
    have h2 := foldl_wave_preserves (applyCadenceOverlay e (if statsMc = 0 then 16 else statsMc)) cads _
      (fun u a _ hu => applyCadenceOverlay_preserves e _ u a he hu) h1.2
    have h3 := foldl_wave_preserves (applyGravityOverlay e (if statsMc = 0 then 16 else statsMc)) gcs _
      (fun u a ha hu => applyGravityOverlay_preserves e _ u a he (hg a ha) hu) h2.2
    exact hdense _ (h3.1.trans (h2.1.trans (h1.1.trans hbaseLen))) h3.2
  · -- fallback simple wave
    unfold createFallbackAgogicMapList
    dsimp only
    have hlen : (generateSimpleWave (if statsMc = 0 then 16 else statsMc)
        (ws * 0.7)).length = effectiveMeasureCount statsMc := by
      rw [generateSimpleWave_length]
      unfold effectiveMeasureCount
      split_ifs with h <;> simp [h]
    exact hdense _ hlen
      (generateSimpleWave_mem _ (ws * 0.7) (by nlinarith))
  · -- alternating degradation
    intro a ha
    have hlen : (alternatingWave (effectiveMeasureCount statsMc) a).length =
        effectiveMeasureCount statsMc := by
      rw [alternatingWave_length]
      split_ifs with h
      · exact absurd h hmc
      · rfl
    exact hdense _ hlen (alternatingWave_mem _ a ha)

theorem agogic_map_dense_and_bounded_witness :
    ∃ v, (createAgogicMapList 0.7 0.8 0.8 [(0, 7)] [7] [(7, 0.6)] 16 0 0 0).get? 0 =
      some v ∧ -1 ≤ v ∧ v ≤ 1 :=
  (agogic_map_dense_and_bounded 0.7 0.8 0.8 [(0, 7)] [7] [(7, 0.6)] 16 0 0 0
    (by norm_num) (by norm_num)
    (by intro p hp
        simp only [List.mem_singleton] at hp
        subst hp
        norm_num)).1 0 (by norm_num [effectiveMeasureCount])


end DigitalDirector
